import Mathlib

/-!
Shallow embedding of the `strapi_import_CLI` sync tool.

The program (src/index.ts, `processCsv`) reads a CSV whose first column is
`feature_id` and whose remaining columns are locale codes, and synchronizes
"pro-feature" records into a remote CMS through three client operations
(src/strapiClient.ts): find-by-feature-id, create-base-document, and
upsert-locale-version.  Per row it validates the identifier and the
default-locale name, ensures a base document exists (create or update), then
upserts every non-empty additional-locale cell, accumulating a `SyncReport`
of successes and failures.

The embedding below translates that logic into pure Lean functions.  Remote
behaviour is a parameter: a `Remote σ` packages the three client calls as
state-passing functions that either return a record or throw a modelled
JavaScript error value.  The driver additionally accumulates the list of
remote calls issued (the client logs each call before dispatch), so that
"no remote call is made" claims are statable.
-/

namespace StrapiSync

/-- A parsed CSV row: the `csv-parse` option `columns: true` yields one
object per data row keyed by the header names.  `get` models JavaScript
property access `row[key]` combined with the code's truthiness checks:
an absent key (`undefined`) and the empty string are both falsy, so both
are represented by `""`. -/
structure CsvRow where
  cells : List (String × String)
deriving DecidableEq

/-- `row[key]`, with `undefined` collapsed to `""` (both are falsy where the
code tests the value). -/
def CsvRow.get (r : CsvRow) (k : String) : String :=
  (r.cells.lookup k).getD ""

/-- `csv-parse` with `columns: true`: each data row becomes an object pairing
header names with cell values. -/
def parseCsv (headers : List String) (dataRows : List (List String)) : List CsvRow :=
  dataRows.map (fun vs => ⟨headers.zip vs⟩)

/-- A remote `ProFeature` record (src/strapiClient.ts, interface ProFeature).
Timestamps are passed through by the program but never interpreted. -/
structure ProFeature where
  id : Nat
  documentId : String
  feature_id : String
  name : String
  createdAt : String
  updatedAt : String
  publishedAt : Option String
  locale : String
deriving DecidableEq

/-- The `action` field of a report entry. -/
inductive Action where
  | createBase
  | updateBase
  | upsertLocale
deriving DecidableEq

/-- A success entry of the sync report (interface ReportEntrySuccess). -/
structure ReportEntrySuccess where
  featureId : String
  locale : String
  action : Action
  documentId : String
  name : String
deriving DecidableEq

/-- A failure entry of the sync report (interface ReportEntryFailure). -/
structure ReportEntryFailure where
  featureId : String
  locale : String
  action : Action
  error : String
  row : CsvRow
deriving DecidableEq

/-- The accumulated sync report (interface SyncReport). -/
structure SyncReport where
  defaultLocale : String
  otherLocales : List String
  processedRows : Nat
  successes : List ReportEntrySuccess
  failures : List ReportEntryFailure
deriving DecidableEq

/-- The shape of the `data` field of an error response, as `formatError`
inspects it: either a structured Strapi error body (`data.error` truthy, with
possibly-falsy `name` and `message`, the empty string standing for a falsy or
absent field) together with the result of `JSON.stringify` on that body, or a
raw payload whose `JSON.stringify` may throw (`none`) with its `String(...)`
rendering as fallback. -/
inductive RespData where
  | withError (name : String) (message : String) (stringifiedBody : String)
  | raw (stringified : Option String) (asString : String)
deriving DecidableEq

/-- A thrown JavaScript value as `formatError` (src/index.ts) discriminates
it: an HTTP-style error carrying a truthy `response`, an `Error` instance, or
any other value (whose `JSON.stringify` may throw, with `String(...)` as the
fallback). -/
inductive JsErr where
  | response (data : RespData)
  | errorInstance (message : String)
  | plain (stringified : Option String) (asString : String)
deriving DecidableEq

/-- `formatError` (src/index.ts): prefer the structured error body's
`name`/`message` (with `'Error'` substituted for a falsy name and the
stringified body for a falsy message); otherwise stringify the payload,
falling back to `String(...)` when `JSON.stringify` throws; an `Error`
instance contributes its message. -/
def formatError : JsErr → String
  | .response (.withError name message stringifiedBody) =>
      (if name = "" then "Error" else name) ++ ": " ++
        (if message = "" then stringifiedBody else message)
  | .response (.raw (some s) _) => s
  | .response (.raw none asString) => asString
  | .errorInstance message => message
  | .plain (some s) _ => s
  | .plain none asString => asString

/-- One remote call, logged by the client before dispatch
(src/strapiClient.ts). -/
inductive RemoteCall where
  | find (featureId : String)
  | create (featureId : String) (name : String) (locale : String)
  | upsert (documentId : String) (locale : String) (name : String)
deriving DecidableEq

/-- The locale that a remote call targets, if any: `create` carries its
locale, `upsert` its locale; the find query is not locale-scoped. -/
def RemoteCall.localeOf : RemoteCall → Option String
  | .find _ => none
  | .create _ _ locale => some locale
  | .upsert _ locale _ => some locale

/-- The remote behaviour, abstracted: the three client operations as
state-passing functions.  Each either returns its result or throws a
JavaScript error value, and may update the remote state `σ`. -/
structure Remote (σ : Type) where
  find : σ → String → Except JsErr (Option ProFeature) × σ
  create : σ → String → String → String → Except JsErr ProFeature × σ
  upsert : σ → String → String → String → Except JsErr ProFeature × σ

/-- The run state threaded through the row loop: the remote state, the
report accumulator, and the trace of remote calls issued so far. -/
structure RowState (σ : Type) where
  s : σ
  report : SyncReport
  trace : List RemoteCall
deriving DecidableEq

/-- The inner loop of `processCsv` (src/index.ts, "Upsert locale versions
for this documentId"): for each additional locale in column order, an empty
cell is skipped silently; otherwise `upsertLocaleVersion` is called and an
`upsert-locale` success or failure is recorded.  One locale's failure does
not stop the loop. -/
def processLocales {σ : Type} (R : Remote σ) (fid docId : String) (row : CsvRow) :
    List String → RowState σ → RowState σ
  | [], st => st
  | loc :: rest, st =>
    let nm := row.get loc
    if nm = "" then
      processLocales R fid docId row rest st
    else
      match R.upsert st.s docId loc nm with
      | (.ok d, s') =>
          processLocales R fid docId row rest
            { s := s'
              report := { st.report with
                successes := st.report.successes ++
                  [⟨fid, loc, .upsertLocale, docId, d.name⟩] }
              trace := st.trace ++ [.upsert docId loc nm] }
      | (.error e, s') =>
          processLocales R fid docId row rest
            { s := s'
              report := { st.report with
                failures := st.report.failures ++
                  [⟨fid, loc, .upsertLocale, formatError e, row⟩] }
              trace := st.trace ++ [.upsert docId loc nm] }

/-- One iteration of the row loop of `processCsv` (src/index.ts): validate
`feature_id` and the default-locale name; find an existing document by
`feature_id`; create the base document (action `create-base`) or update its
default locale (action `update-base`); on any thrown error record a failure
with action `create-base` (the shared catch block) and skip the locale loop;
otherwise run the locale loop and finally increment `processedRows`. -/
def processRow {σ : Type} (R : Remote σ) (dl : String) (ols : List String)
    (row : CsvRow) (st : RowState σ) : RowState σ :=
  let fid := row.get "feature_id"
  if fid = "" then
    { st with report := { st.report with
        failures := st.report.failures ++
          [⟨"", dl, .createBase, "Missing feature_id", row⟩] } }
  else
    let baseName := row.get dl
    if baseName = "" then
      { st with report := { st.report with
          failures := st.report.failures ++
            [⟨fid, dl, .createBase,
              "Missing name for default locale \"" ++ dl ++ "\"", row⟩] } }
    else
      match R.find st.s fid with
      | (.error e, s1) =>
          { s := s1
            report := { st.report with
              failures := st.report.failures ++
                [⟨fid, dl, .createBase, formatError e, row⟩] }
            trace := st.trace ++ [.find fid] }
      | (.ok none, s1) =>
          match R.create s1 fid baseName dl with
          | (.error e, s2) =>
              { s := s2
                report := { st.report with
                  failures := st.report.failures ++
                    [⟨fid, dl, .createBase, formatError e, row⟩] }
                trace := st.trace ++ [.find fid, .create fid baseName dl] }
          | (.ok doc, s2) =>
              let st' : RowState σ :=
                { s := s2
                  report := { st.report with
                    successes := st.report.successes ++
                      [⟨fid, dl, .createBase, doc.documentId, doc.name⟩] }
                  trace := st.trace ++ [.find fid, .create fid baseName dl] }
              let st'' := processLocales R fid doc.documentId row ols st'
              { st'' with report := { st''.report with
                  processedRows := st''.report.processedRows + 1 } }
      | (.ok (some existing), s1) =>
          match R.upsert s1 existing.documentId dl baseName with
          | (.error e, s2) =>
              { s := s2
                report := { st.report with
                  failures := st.report.failures ++
                    [⟨fid, dl, .createBase, formatError e, row⟩] }
                trace := st.trace ++
                  [.find fid, .upsert existing.documentId dl baseName] }
          | (.ok updated, s2) =>
              let st' : RowState σ :=
                { s := s2
                  report := { st.report with
                    successes := st.report.successes ++
                      [⟨fid, dl, .updateBase, existing.documentId, updated.name⟩] }
                  trace := st.trace ++
                    [.find fid, .upsert existing.documentId dl baseName] }
              let st'' := processLocales R fid existing.documentId row ols st'
              { st'' with report := { st''.report with
                  processedRows := st''.report.processedRows + 1 } }

/-- The row loop of `processCsv`: rows are processed strictly in file
order. -/
def processRows {σ : Type} (R : Remote σ) (dl : String) (ols : List String) :
    List CsvRow → RowState σ → RowState σ
  | [], st => st
  | row :: rest, st => processRows R dl ols rest (processRow R dl ols row st)

/-- The outcome of `processCsv`: an early return when the CSV has no data
rows (no report is written), a fatal exit when the header is malformed
(fewer than two columns or a first column other than `feature_id`), or a
completed run carrying the written report and the final remote state. -/
inductive ProcessOutcome (σ : Type) where
  | noRows
  | badHeader
  | done (report : SyncReport) (finalState : σ)
deriving DecidableEq

/-- `processCsv` (src/index.ts): with zero parsed rows it returns early
(before the header check); otherwise the headers are the keys of the first
record, the first must be `feature_id`, the second is the default locale and
the rest the additional locales; then every row is processed in order and
the report is written.  The second component is the trace of remote calls
issued. -/
def processCsv {σ : Type} (R : Remote σ) (s : σ) (rows : List CsvRow) :
    ProcessOutcome σ × List RemoteCall :=
  match rows with
  | [] => (.noRows, [])
  | r0 :: _ =>
    match r0.cells.map Prod.fst with
    | h0 :: h1 :: hrest =>
      if h0 = "feature_id" then
        let st := processRows R h1 hrest rows
          { s := s
            report := ⟨h1, hrest, 0, [], []⟩
            trace := [] }
        (.done st.report st.s, st.trace)
      else (.badHeader, [])
    | _ => (.badHeader, [])

/-- The process exit code for each outcome: a malformed header calls
`process.exit(1)`; the no-rows early return and a completed run let `main`
finish normally (exit code 0). -/
def exitCodeOf {σ : Type} : ProcessOutcome σ → Nat
  | .noRows => 0
  | .badHeader => 1
  | .done _ _ => 0

/-- Whether a report file is written: only a completed run reaches
`fs.writeFileSync(reportFile, ...)`. -/
def reportWritten {σ : Type} : ProcessOutcome σ → Bool
  | .done _ _ => true
  | _ => false

/-! ### Per-row deltas

To reason about what a row appends to the report, the loop is re-expressed
as a computation of the freshly appended entries (a "delta") together with
the evolved remote state; agreement with `processRow`/`processRows` is
proved below (`processLocales_eq_applyDelta`, `processRow_eq_applyDelta`,
`processRows_eq`). -/

/-- The entries, calls, processed-row increment and remote state contributed
by a fragment of the run. -/
structure RowDelta (σ : Type) where
  succ : List ReportEntrySuccess
  fail : List ReportEntryFailure
  calls : List RemoteCall
  inc : Nat
  s : σ
deriving DecidableEq

/-- Append a delta onto a run state. -/
def applyDelta {σ : Type} (st : RowState σ) (d : RowDelta σ) : RowState σ :=
  { s := d.s
    report := { st.report with
      processedRows := st.report.processedRows + d.inc
      successes := st.report.successes ++ d.succ
      failures := st.report.failures ++ d.fail }
    trace := st.trace ++ d.calls }

/-- The delta contributed by the locale loop of one row, starting from
remote state `s`. -/
def localeDelta {σ : Type} (R : Remote σ) (fid docId : String) (row : CsvRow) :
    List String → σ → RowDelta σ
  | [], s => ⟨[], [], [], 0, s⟩
  | loc :: rest, s =>
    let nm := row.get loc
    if nm = "" then
      localeDelta R fid docId row rest s
    else
      match R.upsert s docId loc nm with
      | (.ok d, s') =>
          let rec' := localeDelta R fid docId row rest s'
          ⟨⟨fid, loc, .upsertLocale, docId, d.name⟩ :: rec'.succ,
            rec'.fail, .upsert docId loc nm :: rec'.calls, rec'.inc, rec'.s⟩
      | (.error e, s') =>
          let rec' := localeDelta R fid docId row rest s'
          ⟨rec'.succ, ⟨fid, loc, .upsertLocale, formatError e, row⟩ :: rec'.fail,
            .upsert docId loc nm :: rec'.calls, rec'.inc, rec'.s⟩

/-- The delta contributed by one whole row, starting from remote state
`s`. -/
def rowDelta {σ : Type} (R : Remote σ) (dl : String) (ols : List String)
    (row : CsvRow) (s : σ) : RowDelta σ :=
  let fid := row.get "feature_id"
  if fid = "" then
    ⟨[], [⟨"", dl, .createBase, "Missing feature_id", row⟩], [], 0, s⟩
  else
    let baseName := row.get dl
    if baseName = "" then
      ⟨[], [⟨fid, dl, .createBase,
        "Missing name for default locale \"" ++ dl ++ "\"", row⟩], [], 0, s⟩
    else
      match R.find s fid with
      | (.error e, s1) =>
          ⟨[], [⟨fid, dl, .createBase, formatError e, row⟩], [.find fid], 0, s1⟩
      | (.ok none, s1) =>
          match R.create s1 fid baseName dl with
          | (.error e, s2) =>
              ⟨[], [⟨fid, dl, .createBase, formatError e, row⟩],
                [.find fid, .create fid baseName dl], 0, s2⟩
          | (.ok doc, s2) =>
              let rec' := localeDelta R fid doc.documentId row ols s2
              ⟨⟨fid, dl, .createBase, doc.documentId, doc.name⟩ :: rec'.succ,
                rec'.fail, .find fid :: .create fid baseName dl :: rec'.calls,
                1, rec'.s⟩
      | (.ok (some existing), s1) =>
          match R.upsert s1 existing.documentId dl baseName with
          | (.error e, s2) =>
              ⟨[], [⟨fid, dl, .createBase, formatError e, row⟩],
                [.find fid, .upsert existing.documentId dl baseName], 0, s2⟩
          | (.ok updated, s2) =>
              let rec' := localeDelta R fid existing.documentId row ols s2
              ⟨⟨fid, dl, .updateBase, existing.documentId, updated.name⟩ :: rec'.succ,
                rec'.fail,
                .find fid :: .upsert existing.documentId dl baseName :: rec'.calls,
                1, rec'.s⟩

/-- The per-row deltas of a list of rows, threading the remote state, and
the final remote state. -/
def rowsDeltas {σ : Type} (R : Remote σ) (dl : String) (ols : List String) :
    List CsvRow → σ → List (RowDelta σ) × σ
  | [], s => ([], s)
  | row :: rest, s =>
    let d := rowDelta R dl ols row s
    let (ds, sF) := rowsDeltas R dl ols rest d.s
    (d :: ds, sF)

/-- Concatenated success entries of a list of deltas. -/
def deltasSucc {σ : Type} (ds : List (RowDelta σ)) : List ReportEntrySuccess :=
  (ds.map RowDelta.succ).flatten

/-- Concatenated failure entries of a list of deltas. -/
def deltasFail {σ : Type} (ds : List (RowDelta σ)) : List ReportEntryFailure :=
  (ds.map RowDelta.fail).flatten

/-- Concatenated remote calls of a list of deltas. -/
def deltasCalls {σ : Type} (ds : List (RowDelta σ)) : List RemoteCall :=
  (ds.map RowDelta.calls).flatten

/-- Total processed-row increment of a list of deltas. -/
def deltasInc {σ : Type} (ds : List (RowDelta σ)) : Nat :=
  (ds.map RowDelta.inc).sum

/-! ### Predicates and projections used in the claim statements -/

/-- Whether an action is a base action (`create-base` or `update-base`). -/
def isBaseAction : Action → Bool
  | .upsertLocale => false
  | _ => true

/-- A success entry with a base action. -/
def succIsBase (e : ReportEntrySuccess) : Bool := isBaseAction e.action

/-- A failure entry with a base action. -/
def failIsBase (e : ReportEntryFailure) : Bool := isBaseAction e.action

/-- The number of base-action entries of a report, successes and failures
combined. -/
def baseEntryCount (rep : SyncReport) : Nat :=
  (rep.successes.filter succIsBase).length + (rep.failures.filter failIsBase).length

/-- The row-validation predicate of the spec: a non-empty `feature_id` and a
non-empty default-locale name. -/
def rowPassesChecks (dl : String) (r : CsvRow) : Bool :=
  r.get "feature_id" != "" && r.get dl != ""

/-- The number of rows that pass both presence checks. -/
def countValidRows (dl : String) (rows : List CsvRow) : Nat :=
  (rows.filter (rowPassesChecks dl)).length

/-- The validation error message for a missing default-locale name. -/
def missingNameError (dl : String) : String :=
  "Missing name for default locale \"" ++ dl ++ "\""

/-- The base step of a row throws: the find call errors, or the find
succeeds with no match and the create call errors, or the find succeeds
with a match and the default-locale upsert errors. -/
def baseStepFails {σ : Type} (R : Remote σ) (s : σ) (fid name dl : String) : Prop :=
  match R.find s fid with
  | (.error _, _) => True
  | (.ok none, s1) => ∃ e, (R.create s1 fid name dl).1 = .error e
  | (.ok (some doc), s1) => ∃ e, (R.upsert s1 doc.documentId dl name).1 = .error e

/-- `processedRows` of a completed run, `0` otherwise. -/
def processedRowsOf {σ : Type} : ProcessOutcome σ → Nat
  | .done rep _ => rep.processedRows
  | _ => 0

/-- The actions of the failure entries of a completed run, in order. -/
def failActionsOf {σ : Type} : ProcessOutcome σ → List Action
  | .done rep _ => rep.failures.map ReportEntryFailure.action
  | _ => []

/-- The actions of the success entries of a completed run, in order. -/
def succActionsOf {σ : Type} : ProcessOutcome σ → List Action
  | .done rep _ => rep.successes.map ReportEntrySuccess.action
  | _ => []

/-! ### A concrete remote for counterexamples and witnesses -/

/-- A fixed pre-existing record, used by concrete remotes below. -/
def demoDoc : ProFeature :=
  ⟨1, "doc-F1", "F1", "Hello", "", "", none, "en"⟩

/-- A remote on which every find locates `demoDoc` and every write throws
an `Error` instance. -/
def findSomeUpsertFailRemote : Remote Unit where
  find := fun s _ => (.ok (some demoDoc), s)
  create := fun s _ _ _ => (.error (.errorInstance "boom"), s)
  upsert := fun s _ _ _ => (.error (.errorInstance "boom"), s)

/-- A remote on which every find throws a structured validation error. -/
def findFailRemote : Remote Unit where
  find := fun s _ =>
    (.error (.response (.withError "ValidationError" "bad filter" "body")), s)
  create := fun s _ _ _ => (.error (.errorInstance "unreachable"), s)
  upsert := fun s _ _ _ => (.error (.errorInstance "unreachable"), s)

/-- The initial run state for a default locale and other locales. -/
def initState (dl : String) (ols : List String) : RowState Unit :=
  ⟨(), ⟨dl, ols, 0, [], []⟩, []⟩

/-! ### A concrete remote state machine

Modelled from the spec: the remote "pro-features" collection itself lives
outside this repository (the client in src/strapiClient.ts only issues the
three HTTP requests), so its semantics are taken from §4.1 and §6 of the
specification: find-by-`feature_id` returns the first record whose
`feature_id` matches exactly (or "not found"); create inserts a new document
with a fresh `documentId` in the given locale; upsert-locale on an existing
`documentId` overwrites the present variant's name or creates the absent
variant (idempotent put-by-locale), and rejects an unknown `documentId`. -/

structure StrapiState where
  records : List ProFeature
  nextId : Nat
deriving DecidableEq

/-- The empty remote state. -/
def emptyStrapi : StrapiState := ⟨[], 0⟩

/-- Exact match on `feature_id`. -/
def isFid (fid : String) (r : ProFeature) : Bool := r.feature_id == fid

/-- Match on `documentId`. -/
def isDoc (docId : String) (r : ProFeature) : Bool := r.documentId == docId

/-- Match on the (`documentId`, locale) pair. -/
def isVariant (docId locale : String) (r : ProFeature) : Bool :=
  r.documentId == docId && r.locale == locale

/-- Modelled from the spec: `GET /pro-features?filters[feature_id][$eq]=...`
with page size 1 — the first exact match, or "not found" (not an error). -/
def strapiFind (s : StrapiState) (fid : String) :
    Except JsErr (Option ProFeature) × StrapiState :=
  (.ok (s.records.find? (isFid fid)), s)

/-- Modelled from the spec: `POST /pro-features` creates a new document with
a fresh `documentId` in the given locale. -/
def strapiCreate (s : StrapiState) (fid name locale : String) :
    Except JsErr ProFeature × StrapiState :=
  let doc : ProFeature :=
    ⟨s.nextId, "doc-" ++ toString s.nextId, fid, name, "", "", none, locale⟩
  (.ok doc, ⟨s.records ++ [doc], s.nextId + 1⟩)

/-- Overwrite the name of the (`documentId`, locale) variant, leaving every
other record unchanged. -/
def setName (docId locale name : String) (r : ProFeature) : ProFeature :=
  if isVariant docId locale r then { r with name := name } else r

/-- Modelled from the spec: `PUT /pro-features/:documentId?locale=...` —
idempotent put-by-locale on an existing document (absent variant created
with the document's `feature_id`, present variant overwritten); an unknown
`documentId` is rejected. -/
def strapiUpsert (s : StrapiState) (docId locale name : String) :
    Except JsErr ProFeature × StrapiState :=
  match s.records.find? (isDoc docId) with
  | none => (.error (.response (.withError "NotFoundError" "Not Found" "body")), s)
  | some base =>
    match s.records.find? (isVariant docId locale) with
    | some v =>
        (.ok { v with name := name },
          ⟨s.records.map (setName docId locale name), s.nextId⟩)
    | none =>
        let v : ProFeature := ⟨s.nextId, docId, base.feature_id, name, "", "", none, locale⟩
        (.ok v, ⟨s.records ++ [v], s.nextId + 1⟩)

/-- The spec-modelled remote, packaging the three operations. -/
def strapiRemote : Remote StrapiState := ⟨strapiFind, strapiCreate, strapiUpsert⟩

/-- A `feature_id` is discoverable in the remote state. -/
def hasFid (s : StrapiState) (fid : String) : Prop :=
  ∃ r ∈ s.records, r.feature_id = fid

instance (s : StrapiState) (fid : String) : Decidable (hasFid s fid) := by
  unfold hasFid; infer_instance

/-! ### Concrete CSV rows for witnesses and counterexamples -/

/-- A well-formed row: `feature_id,en,vi` with values `F1,Hello,Xin chao`. -/
def rowF1 : CsvRow := ⟨[("feature_id", "F1"), ("en", "Hello"), ("vi", "Xin chao")]⟩

/-- A row whose `vi` cell is empty: `F2,World,`. -/
def rowF2 : CsvRow := ⟨[("feature_id", "F2"), ("en", "World"), ("vi", "")]⟩

/-- A row with an empty `feature_id`. -/
def rowNoFid : CsvRow := ⟨[("feature_id", ""), ("en", "Ghost"), ("vi", "Ma")]⟩

/-- A row with an empty default-locale name. -/
def rowNoName : CsvRow := ⟨[("feature_id", "F3"), ("en", ""), ("vi", "Ba")]⟩

/-- The locale that a completed run's trace targets, per call. -/
def traceLocalesOf (calls : List RemoteCall) : List (Option String) :=
  calls.map RemoteCall.localeOf

/-- The locale of one claim statement is "not mentioned by a call": the
call's locale, if any, differs. -/
def callAvoids (loc : String) (c : RemoteCall) : Prop :=
  c.localeOf ≠ some loc

/-- The initial run state over the spec-modelled remote, for the
`feature_id,en,vi` header. -/
def initStrapi : RowState StrapiState := ⟨emptyStrapi, ⟨"en", ["vi"], 0, [], []⟩, []⟩

/-- The report of running `feature_id,en,vi / F1,Hello,Xin chao / F2,World,`
against the empty spec-modelled remote (the §8 scenario of the spec). -/
def reportF1F2 : SyncReport :=
  ⟨"en", ["vi"], 2,
    [⟨"F1", "en", .createBase, "doc-0", "Hello"⟩,
     ⟨"F1", "vi", .upsertLocale, "doc-0", "Xin chao"⟩,
     ⟨"F2", "en", .createBase, "doc-2", "World"⟩],
    []⟩

/-- The remote state after that run. -/
def stateF1F2 : StrapiState :=
  ⟨[⟨0, "doc-0", "F1", "Hello", "", "", none, "en"⟩,
    ⟨1, "doc-0", "F1", "Xin chao", "", "", none, "vi"⟩,
    ⟨2, "doc-2", "F2", "World", "", "", none, "en"⟩], 3⟩

/-- The remote calls of that run. -/
def traceF1F2 : List RemoteCall :=
  [.find "F1", .create "F1" "Hello" "en", .upsert "doc-0" "vi" "Xin chao",
   .find "F2", .create "F2" "World" "en"]

/-- The report of running `F1,Hello,Xin chao` against `findFailRemote`. -/
def reportFindFail : SyncReport :=
  ⟨"en", ["vi"], 0, [],
    [⟨"F1", "en", .createBase, "ValidationError: bad filter", rowF1⟩]⟩

/-- The report of running the same two-row CSV a second time, against the
state left by the first run: both rows now take the `update-base` path. -/
def reportF1F2second : SyncReport :=
  ⟨"en", ["vi"], 2,
    [⟨"F1", "en", .updateBase, "doc-0", "Hello"⟩,
     ⟨"F1", "vi", .upsertLocale, "doc-0", "Xin chao"⟩,
     ⟨"F2", "en", .updateBase, "doc-2", "World"⟩],
    []⟩

/-- The remote calls of that second run. -/
def traceF1F2second : List RemoteCall :=
  [.find "F1", .upsert "doc-0" "en" "Hello", .upsert "doc-0" "vi" "Xin chao",
   .find "F2", .upsert "doc-2" "en" "World"]

/-- The locale loop never touches the processed-row counter. -/
theorem localeDelta_inc {σ : Type} (R : Remote σ) (fid docId : String)
    (row : CsvRow) (locales : List String) :
    ∀ s : σ, (localeDelta R fid docId row locales s).inc = 0 := by
  induction locales with
  | nil => intro s; simp [localeDelta]
  | cons loc rest ih =>
    intro s
    by_cases hnm : row.get loc = ""
    · simpa [localeDelta, hnm] using ih s
    · rcases hup : R.upsert s docId loc (row.get loc) with ⟨res, s'⟩
      cases res with
      | ok d => simpa [localeDelta, hnm, hup] using ih s'
      | error e => simpa [localeDelta, hnm, hup] using ih s'

/-- The locale loop equals appending its delta. -/
theorem processLocales_eq_applyDelta {σ : Type} (R : Remote σ) (fid docId : String)
    (row : CsvRow) (locales : List String) :
    ∀ st : RowState σ,
    processLocales R fid docId row locales st =
      applyDelta st (localeDelta R fid docId row locales st.s) := by
  induction locales with
  | nil => intro st; simp [processLocales, localeDelta, applyDelta]
  | cons loc rest ih =>
    intro st
    by_cases hnm : row.get loc = ""
    · simpa [processLocales, localeDelta, hnm] using ih st
    · rcases hup : R.upsert st.s docId loc (row.get loc) with ⟨res, s'⟩
      cases res with
      | ok d =>
        simp [processLocales, localeDelta, hnm, hup]
        rw [ih]
        simp [applyDelta]
      | error e =>
        simp [processLocales, localeDelta, hnm, hup]
        rw [ih]
        simp [applyDelta]

/-- One row of the loop equals appending its delta. -/
theorem processRow_eq_applyDelta {σ : Type} (R : Remote σ) (dl : String)
    (ols : List String) (row : CsvRow) (st : RowState σ) :
    processRow R dl ols row st = applyDelta st (rowDelta R dl ols row st.s) := by
  by_cases hfid : row.get "feature_id" = ""
  · simp [processRow, rowDelta, hfid, applyDelta]
  · by_cases hnm : row.get dl = ""
    · simp [processRow, rowDelta, hfid, hnm, applyDelta]
    · rcases hfind : R.find st.s (row.get "feature_id") with ⟨res, s1⟩
      cases res with
      | error e =>
        simp [processRow, rowDelta, hfid, hnm, hfind, applyDelta]
      | ok found =>
        cases found with
        | none =>
          rcases hcr : R.create s1 (row.get "feature_id") (row.get dl) dl with ⟨cres, s2⟩
          cases cres with
          | error e =>
            simp [processRow, rowDelta, hfid, hnm, hfind, hcr, applyDelta]
          | ok doc =>
            simp [processRow, rowDelta, hfid, hnm, hfind, hcr]
            rw [processLocales_eq_applyDelta]
            simp [applyDelta, localeDelta_inc]
        | some existing =>
          rcases hup : R.upsert s1 existing.documentId dl (row.get dl) with ⟨ures, s2⟩
          cases ures with
          | error e =>
            simp [processRow, rowDelta, hfid, hnm, hfind, hup, applyDelta]
          | ok updated =>
            simp [processRow, rowDelta, hfid, hnm, hfind, hup]
            rw [processLocales_eq_applyDelta]
            simp [applyDelta, localeDelta_inc]

/-- The whole row loop equals appending the concatenation of the per-row
deltas; the final remote state is the one threaded through `rowsDeltas`. -/
theorem processRows_eq {σ : Type} (R : Remote σ) (dl : String) (ols : List String)
    (rows : List CsvRow) :
    ∀ st : RowState σ,
    processRows R dl ols rows st =
      { s := (rowsDeltas R dl ols rows st.s).2
        report := { st.report with
          processedRows :=
            st.report.processedRows + deltasInc (rowsDeltas R dl ols rows st.s).1
          successes :=
            st.report.successes ++ deltasSucc (rowsDeltas R dl ols rows st.s).1
          failures :=
            st.report.failures ++ deltasFail (rowsDeltas R dl ols rows st.s).1 }
        trace := st.trace ++ deltasCalls (rowsDeltas R dl ols rows st.s).1 } := by
  induction rows with
  | nil =>
    intro st
    simp [processRows, rowsDeltas, deltasSucc, deltasFail, deltasCalls, deltasInc]
  | cons row rest ih =>
    intro st
    simp only [processRows]
    rw [processRow_eq_applyDelta, ih]
    simp [applyDelta, rowsDeltas, deltasSucc, deltasFail, deltasCalls, deltasInc,
      Nat.add_assoc]

/-- Inversion of a completed run: the CSV was non-empty with a well-formed
header, and the report is exactly the concatenation of the per-row deltas
over the default locale and other locales taken from the first row's
keys. -/
theorem processCsv_done_inv {σ : Type} (R : Remote σ) (s : σ) (rows : List CsvRow)
    (rep : SyncReport) (sF : σ) (tr : List RemoteCall)
    (h : processCsv R s rows = (.done rep sF, tr)) :
    ∃ r0 rest h1 hrest,
      rows = r0 :: rest ∧
      r0.cells.map Prod.fst = "feature_id" :: h1 :: hrest ∧
      rep = ⟨h1, hrest, deltasInc (rowsDeltas R h1 hrest rows s).1,
        deltasSucc (rowsDeltas R h1 hrest rows s).1,
        deltasFail (rowsDeltas R h1 hrest rows s).1⟩ ∧
      sF = (rowsDeltas R h1 hrest rows s).2 ∧
      tr = deltasCalls (rowsDeltas R h1 hrest rows s).1 := by
  cases rows with
  | nil => simp [processCsv] at h
  | cons r0 rest =>
    rcases hh : r0.cells.map Prod.fst with _ | ⟨h0, _ | ⟨h1, hrest⟩⟩
    · simp only [processCsv] at h
      rw [hh] at h
      simp at h
    · simp only [processCsv] at h
      rw [hh] at h
      simp at h
    · by_cases h0eq : h0 = "feature_id"
      · subst h0eq
        simp only [processCsv] at h
        rw [hh] at h
        simp at h
        rw [processRows_eq] at h
        simp at h
        obtain ⟨⟨hsF, hrep⟩, htr⟩ := h
        exact ⟨r0, rest, h1, hrest, rfl, hh, hsF.symm, hrep.symm, htr.symm⟩
      · simp only [processCsv] at h
        rw [hh] at h
        simp [h0eq] at h

/-- Every entry and call produced by the locale loop: the action is
`upsert-locale`, the feature id is the row's, the cell is non-empty, and
the locale is one of the loop's locales. -/
theorem localeDelta_entries {σ : Type} (R : Remote σ) (fid docId : String)
    (row : CsvRow) :
    ∀ (locales : List String) (s : σ),
      (∀ e ∈ (localeDelta R fid docId row locales s).succ,
        e.action = Action.upsertLocale ∧ e.featureId = fid ∧
          row.get e.locale ≠ "" ∧ e.locale ∈ locales) ∧
      (∀ e ∈ (localeDelta R fid docId row locales s).fail,
        e.action = Action.upsertLocale ∧ e.featureId = fid ∧
          row.get e.locale ≠ "" ∧ e.locale ∈ locales) ∧
      (∀ c ∈ (localeDelta R fid docId row locales s).calls,
        ∀ l, c.localeOf = some l → (row.get l ≠ "" ∧ l ∈ locales)) := by
  intro locales
  induction locales with
  | nil => intro s; simp [localeDelta]
  | cons loc rest ih =>
    intro s
    by_cases hnm : row.get loc = ""
    · refine ⟨?_, ?_, ?_⟩
      · intro e he
        have := ((ih s).1 e (by simpa [localeDelta, hnm] using he))
        exact ⟨this.1, this.2.1, this.2.2.1, List.mem_cons_of_mem _ this.2.2.2⟩
      · intro e he
        have := ((ih s).2.1 e (by simpa [localeDelta, hnm] using he))
        exact ⟨this.1, this.2.1, this.2.2.1, List.mem_cons_of_mem _ this.2.2.2⟩
      · intro c hc l hl
        have := ((ih s).2.2 c (by simpa [localeDelta, hnm] using hc)) l hl
        exact ⟨this.1, List.mem_cons_of_mem _ this.2⟩
    · rcases hup : R.upsert s docId loc (row.get loc) with ⟨res, s'⟩
      cases res with
      | ok d =>
        refine ⟨?_, ?_, ?_⟩
        · intro e he
          rcases (by simpa [localeDelta, hnm, hup] using he :
              e = ⟨fid, loc, .upsertLocale, docId, d.name⟩ ∨
                e ∈ (localeDelta R fid docId row rest s').succ) with he' | he'
          · subst he'; exact ⟨rfl, rfl, hnm, List.mem_cons_self _ _⟩
          · have := (ih s').1 e he'
            exact ⟨this.1, this.2.1, this.2.2.1, List.mem_cons_of_mem _ this.2.2.2⟩
        · intro e he
          have := (ih s').2.1 e (by simpa [localeDelta, hnm, hup] using he)
          exact ⟨this.1, this.2.1, this.2.2.1, List.mem_cons_of_mem _ this.2.2.2⟩
        · intro c hc l hl
          rcases (by simpa [localeDelta, hnm, hup] using hc :
              c = RemoteCall.upsert docId loc (row.get loc) ∨
                c ∈ (localeDelta R fid docId row rest s').calls) with hc' | hc'
          · subst hc'
            simp only [RemoteCall.localeOf, Option.some.injEq] at hl
            subst hl
            exact ⟨hnm, List.mem_cons_self _ _⟩
          · have := (ih s').2.2 c hc' l hl
            exact ⟨this.1, List.mem_cons_of_mem _ this.2⟩
      | error e0 =>
        refine ⟨?_, ?_, ?_⟩
        · intro e he
          have := (ih s').1 e (by simpa [localeDelta, hnm, hup] using he)
          exact ⟨this.1, this.2.1, this.2.2.1, List.mem_cons_of_mem _ this.2.2.2⟩
        · intro e he
          rcases (by simpa [localeDelta, hnm, hup] using he :
              e = ⟨fid, loc, .upsertLocale, formatError e0, row⟩ ∨
                e ∈ (localeDelta R fid docId row rest s').fail) with he' | he'
          · subst he'; exact ⟨rfl, rfl, hnm, List.mem_cons_self _ _⟩
          · have := (ih s').2.1 e he'
            exact ⟨this.1, this.2.1, this.2.2.1, List.mem_cons_of_mem _ this.2.2.2⟩
        · intro c hc l hl
          rcases (by simpa [localeDelta, hnm, hup] using hc :
              c = RemoteCall.upsert docId loc (row.get loc) ∨
                c ∈ (localeDelta R fid docId row rest s').calls) with hc' | hc'
          · subst hc'
            simp only [RemoteCall.localeOf, Option.some.injEq] at hl
            subst hl
            exact ⟨hnm, List.mem_cons_self _ _⟩
          · have := (ih s').2.2 c hc' l hl
            exact ⟨this.1, List.mem_cons_of_mem _ this.2⟩

/-- When the base step throws, the row's delta has no successes, only
`create-base` failures, and does not count the row as processed. -/
theorem rowDelta_baseStepFails {σ : Type} (R : Remote σ) (dl : String)
    (ols : List String) (row : CsvRow) (s : σ)
    (hfail : baseStepFails R s (row.get "feature_id") (row.get dl) dl) :
    (rowDelta R dl ols row s).succ = [] ∧
    (∀ e ∈ (rowDelta R dl ols row s).fail, e.action = Action.createBase) ∧
    (rowDelta R dl ols row s).inc = 0 := by
  by_cases hfid : row.get "feature_id" = ""
  · refine ⟨by simp [rowDelta, hfid], ?_, by simp [rowDelta, hfid]⟩
    intro e he
    have : e = ⟨"", dl, .createBase, "Missing feature_id", row⟩ := by
      simpa [rowDelta, hfid] using he
    simp [this]
  · by_cases hnm : row.get dl = ""
    · refine ⟨by simp [rowDelta, hfid, hnm], ?_, by simp [rowDelta, hfid, hnm]⟩
      intro e he
      have : e = ⟨row.get "feature_id", dl, .createBase,
          missingNameError dl, row⟩ := by
        simpa [rowDelta, hfid, hnm, missingNameError] using he
      simp [this]
    · rcases hfind : R.find s (row.get "feature_id") with ⟨fres, s1⟩
      unfold baseStepFails at hfail
      rw [hfind] at hfail
      cases fres with
      | error e0 =>
        refine ⟨by simp [rowDelta, hfid, hnm, hfind], ?_, by simp [rowDelta, hfid, hnm, hfind]⟩
        intro e he
        have : e = ⟨row.get "feature_id", dl, .createBase, formatError e0, row⟩ := by
          simpa [rowDelta, hfid, hnm, hfind] using he
        simp [this]
      | ok found =>
        cases found with
        | none =>
          rcases hcr : R.create s1 (row.get "feature_id") (row.get dl) dl with ⟨cres, s2⟩
          obtain ⟨e0, he0⟩ := hfail
          rw [hcr] at he0
          cases cres with
          | ok doc => simp at he0
          | error e1 =>
            refine ⟨by simp [rowDelta, hfid, hnm, hfind, hcr], ?_,
              by simp [rowDelta, hfid, hnm, hfind, hcr]⟩
            intro e he
            have : e = ⟨row.get "feature_id", dl, .createBase, formatError e1, row⟩ := by
              simpa [rowDelta, hfid, hnm, hfind, hcr] using he
            simp [this]
        | some existing =>
          rcases hup : R.upsert s1 existing.documentId dl (row.get dl) with ⟨ures, s2⟩
          obtain ⟨e0, he0⟩ := hfail
          rw [hup] at he0
          cases ures with
          | ok updated => simp at he0
          | error e1 =>
            refine ⟨by simp [rowDelta, hfid, hnm, hfind, hup], ?_,
              by simp [rowDelta, hfid, hnm, hfind, hup]⟩
            intro e he
            have : e = ⟨row.get "feature_id", dl, .createBase, formatError e1, row⟩ := by
              simpa [rowDelta, hfid, hnm, hfind, hup] using he
            simp [this]

/-- Every entry of a row's delta targets the default locale or a locale
whose cell is non-empty; every remote call of the delta likewise. -/
theorem rowDelta_locales {σ : Type} (R : Remote σ) (dl : String)
    (ols : List String) (row : CsvRow) (s : σ) :
    (∀ e ∈ (rowDelta R dl ols row s).succ, e.locale = dl ∨ row.get e.locale ≠ "") ∧
    (∀ e ∈ (rowDelta R dl ols row s).fail, e.locale = dl ∨ row.get e.locale ≠ "") ∧
    (∀ c ∈ (rowDelta R dl ols row s).calls, ∀ l, c.localeOf = some l →
      (l = dl ∨ row.get l ≠ "")) := by
  by_cases hfid : row.get "feature_id" = ""
  · refine ⟨by simp [rowDelta, hfid], ?_, by simp [rowDelta, hfid]⟩
    intro e he
    have : e = ⟨"", dl, .createBase, "Missing feature_id", row⟩ := by
      simpa [rowDelta, hfid] using he
    simp [this]
  · by_cases hnm : row.get dl = ""
    · refine ⟨by simp [rowDelta, hfid, hnm], ?_, by simp [rowDelta, hfid, hnm]⟩
      intro e he
      have : e = ⟨row.get "feature_id", dl, .createBase, missingNameError dl, row⟩ := by
        simpa [rowDelta, hfid, hnm, missingNameError] using he
      simp [this]
    · rcases hfind : R.find s (row.get "feature_id") with ⟨fres, s1⟩
      cases fres with
      | error e0 =>
        refine ⟨by simp [rowDelta, hfid, hnm, hfind], ?_, ?_⟩
        · intro e he
          have : e = ⟨row.get "feature_id", dl, .createBase, formatError e0, row⟩ := by
            simpa [rowDelta, hfid, hnm, hfind] using he
          simp [this]
        · intro c hc l hl
          have : c = RemoteCall.find (row.get "feature_id") := by
            simpa [rowDelta, hfid, hnm, hfind] using hc
          rw [this] at hl
          simp [RemoteCall.localeOf] at hl
      | ok found =>
        cases found with
        | none =>
          rcases hcr : R.create s1 (row.get "feature_id") (row.get dl) dl with ⟨cres, s2⟩
          cases cres with
          | error e1 =>
            refine ⟨by simp [rowDelta, hfid, hnm, hfind, hcr], ?_, ?_⟩
            · intro e he
              have : e = ⟨row.get "feature_id", dl, .createBase, formatError e1, row⟩ := by
                simpa [rowDelta, hfid, hnm, hfind, hcr] using he
              simp [this]
            · intro c hc l hl
              rcases (by simpa [rowDelta, hfid, hnm, hfind, hcr] using hc :
                  c = RemoteCall.find (row.get "feature_id") ∨
                    c = RemoteCall.create (row.get "feature_id") (row.get dl) dl) with h' | h'
              · rw [h'] at hl; simp [RemoteCall.localeOf] at hl
              · rw [h'] at hl
                simp only [RemoteCall.localeOf, Option.some.injEq] at hl
                exact Or.inl hl.symm
          | ok doc =>
            obtain ⟨hS, hF, hC⟩ := localeDelta_entries R (row.get "feature_id")
              doc.documentId row ols s2
            refine ⟨?_, ?_, ?_⟩
            · intro e he
              rcases (by simpa [rowDelta, hfid, hnm, hfind, hcr] using he :
                  e = ⟨row.get "feature_id", dl, .createBase, doc.documentId, doc.name⟩ ∨
                    e ∈ (localeDelta R (row.get "feature_id") doc.documentId row ols s2).succ)
                  with h' | h'
              · simp [h']
              · exact Or.inr (hS e h').2.2.1
            · intro e he
              have h' : e ∈ (localeDelta R (row.get "feature_id") doc.documentId row ols s2).fail := by
                simpa [rowDelta, hfid, hnm, hfind, hcr] using he
              exact Or.inr (hF e h').2.2.1
            · intro c hc l hl
              rcases (by simpa [rowDelta, hfid, hnm, hfind, hcr] using hc :
                  c = RemoteCall.find (row.get "feature_id") ∨
                    c = RemoteCall.create (row.get "feature_id") (row.get dl) dl ∨
                    c ∈ (localeDelta R (row.get "feature_id") doc.documentId row ols s2).calls)
                  with h' | h' | h'
              · rw [h'] at hl; simp [RemoteCall.localeOf] at hl
              · rw [h'] at hl
                simp only [RemoteCall.localeOf, Option.some.injEq] at hl
                exact Or.inl hl.symm
              · exact Or.inr (hC c h' l hl).1
        | some existing =>
          rcases hup : R.upsert s1 existing.documentId dl (row.get dl) with ⟨ures, s2⟩
          cases ures with
          | error e1 =>
            refine ⟨by simp [rowDelta, hfid, hnm, hfind, hup], ?_, ?_⟩
            · intro e he
              have : e = ⟨row.get "feature_id", dl, .createBase, formatError e1, row⟩ := by
                simpa [rowDelta, hfid, hnm, hfind, hup] using he
              simp [this]
            · intro c hc l hl
              rcases (by simpa [rowDelta, hfid, hnm, hfind, hup] using hc :
                  c = RemoteCall.find (row.get "feature_id") ∨
                    c = RemoteCall.upsert existing.documentId dl (row.get dl)) with h' | h'
              · rw [h'] at hl; simp [RemoteCall.localeOf] at hl
              · rw [h'] at hl
                simp only [RemoteCall.localeOf, Option.some.injEq] at hl
                exact Or.inl hl.symm
          | ok updated =>
            obtain ⟨hS, hF, hC⟩ := localeDelta_entries R (row.get "feature_id")
              existing.documentId row ols s2
            refine ⟨?_, ?_, ?_⟩
            · intro e he
              rcases (by simpa [rowDelta, hfid, hnm, hfind, hup] using he :
                  e = ⟨row.get "feature_id", dl, .updateBase, existing.documentId, updated.name⟩ ∨
                    e ∈ (localeDelta R (row.get "feature_id") existing.documentId row ols s2).succ)
                  with h' | h'
              · simp [h']
              · exact Or.inr (hS e h').2.2.1
            · intro e he
              have h' : e ∈ (localeDelta R (row.get "feature_id") existing.documentId row ols s2).fail := by
                simpa [rowDelta, hfid, hnm, hfind, hup] using he
              exact Or.inr (hF e h').2.2.1
            · intro c hc l hl
              rcases (by simpa [rowDelta, hfid, hnm, hfind, hup] using hc :
                  c = RemoteCall.find (row.get "feature_id") ∨
                    c = RemoteCall.upsert existing.documentId dl (row.get dl) ∨
                    c ∈ (localeDelta R (row.get "feature_id") existing.documentId row ols s2).calls)
                  with h' | h' | h'
              · rw [h'] at hl; simp [RemoteCall.localeOf] at hl
              · rw [h'] at hl
                simp only [RemoteCall.localeOf, Option.some.injEq] at hl
                exact Or.inl hl.symm
              · exact Or.inr (hC c h' l hl).1

/-- `deltasSucc` distributes over cons. -/
theorem deltasSucc_cons {σ : Type} (d : RowDelta σ) (ds : List (RowDelta σ)) :
    deltasSucc (d :: ds) = d.succ ++ deltasSucc ds := by
  simp [deltasSucc]

/-- `deltasFail` distributes over cons. -/
theorem deltasFail_cons {σ : Type} (d : RowDelta σ) (ds : List (RowDelta σ)) :
    deltasFail (d :: ds) = d.fail ++ deltasFail ds := by
  simp [deltasFail]

/-- `deltasCalls` distributes over cons. -/
theorem deltasCalls_cons {σ : Type} (d : RowDelta σ) (ds : List (RowDelta σ)) :
    deltasCalls (d :: ds) = d.calls ++ deltasCalls ds := by
  simp [deltasCalls]

/-- `deltasInc` distributes over cons. -/
theorem deltasInc_cons {σ : Type} (d : RowDelta σ) (ds : List (RowDelta σ)) :
    deltasInc (d :: ds) = d.inc + deltasInc ds := by
  simp [deltasInc]

/-- The locale loop contributes no base-action entry. -/
theorem localeDelta_filter_base {σ : Type} (R : Remote σ) (fid docId : String)
    (row : CsvRow) (locales : List String) (s : σ) :
    (localeDelta R fid docId row locales s).succ.filter succIsBase = [] ∧
    (localeDelta R fid docId row locales s).fail.filter failIsBase = [] := by
  obtain ⟨hS, hF, -⟩ := localeDelta_entries R fid docId row locales s
  constructor
  · rw [List.filter_eq_nil_iff]
    intro e he
    simp [succIsBase, (hS e he).1, isBaseAction]
  · rw [List.filter_eq_nil_iff]
    intro e he
    simp [failIsBase, (hF e he).1, isBaseAction]

/-- Every row — valid or not — contributes exactly one base-action entry,
and is counted as processed exactly when it contributes a base success. -/
theorem rowDelta_base_count {σ : Type} (R : Remote σ) (dl : String)
    (ols : List String) (row : CsvRow) (s : σ) :
    ((rowDelta R dl ols row s).succ.filter succIsBase).length +
      ((rowDelta R dl ols row s).fail.filter failIsBase).length = 1 ∧
    (rowDelta R dl ols row s).inc =
      ((rowDelta R dl ols row s).succ.filter succIsBase).length := by
  by_cases hfid : row.get "feature_id" = ""
  · constructor <;>
      simp [rowDelta, hfid, succIsBase, failIsBase, isBaseAction]
  · by_cases hnm : row.get dl = ""
    · constructor <;>
        simp [rowDelta, hfid, hnm, succIsBase, failIsBase, isBaseAction]
    · rcases hfind : R.find s (row.get "feature_id") with ⟨fres, s1⟩
      cases fres with
      | error e0 =>
        constructor <;>
          simp [rowDelta, hfid, hnm, hfind, succIsBase, failIsBase, isBaseAction]
      | ok found =>
        cases found with
        | none =>
          rcases hcr : R.create s1 (row.get "feature_id") (row.get dl) dl with ⟨cres, s2⟩
          cases cres with
          | error e1 =>
            constructor <;>
              simp [rowDelta, hfid, hnm, hfind, hcr, succIsBase, failIsBase, isBaseAction]
          | ok doc =>
            have hfb := localeDelta_filter_base R (row.get "feature_id")
              doc.documentId row ols s2
            constructor <;>
              simp [rowDelta, hfid, hnm, hfind, hcr, hfb.1, hfb.2,
                succIsBase, failIsBase, isBaseAction]
        | some existing =>
          rcases hup : R.upsert s1 existing.documentId dl (row.get dl) with ⟨ures, s2⟩
          cases ures with
          | error e1 =>
            constructor <;>
              simp [rowDelta, hfid, hnm, hfind, hup, succIsBase, failIsBase, isBaseAction]
          | ok updated =>
            have hfb := localeDelta_filter_base R (row.get "feature_id")
              existing.documentId row ols s2
            constructor <;>
              simp [rowDelta, hfid, hnm, hfind, hup, hfb.1, hfb.2,
                succIsBase, failIsBase, isBaseAction]

/-- Over any row list, the total processed-row increment equals the number
of base-action success entries. -/
theorem deltasInc_eq_base_successes {σ : Type} (R : Remote σ) (dl : String)
    (ols : List String) :
    ∀ (rows : List CsvRow) (s : σ),
      deltasInc (rowsDeltas R dl ols rows s).1 =
        ((deltasSucc (rowsDeltas R dl ols rows s).1).filter succIsBase).length := by
  intro rows
  induction rows with
  | nil => intro s; simp [rowsDeltas, deltasInc, deltasSucc]
  | cons row rest ih =>
    intro s
    simp only [rowsDeltas, deltasInc_cons, deltasSucc_cons, List.filter_append,
      List.length_append]
    rw [(rowDelta_base_count R dl ols row s).2, ih]

/-- Every failure recorded by the locale loop carries a formatted error. -/
theorem localeDelta_fail_errors {σ : Type} (R : Remote σ) (fid docId : String)
    (row : CsvRow) :
    ∀ (locales : List String) (s : σ),
      ∀ e ∈ (localeDelta R fid docId row locales s).fail,
        ∃ je, e.error = formatError je := by
  intro locales
  induction locales with
  | nil => intro s; simp [localeDelta]
  | cons loc rest ih =>
    intro s e he
    by_cases hnm : row.get loc = ""
    · exact ih s e (by simpa [localeDelta, hnm] using he)
    · rcases hup : R.upsert s docId loc (row.get loc) with ⟨res, s'⟩
      cases res with
      | ok d => exact ih s' e (by simpa [localeDelta, hnm, hup] using he)
      | error e0 =>
        rcases (by simpa [localeDelta, hnm, hup] using he :
            e = ⟨fid, loc, .upsertLocale, formatError e0, row⟩ ∨
              e ∈ (localeDelta R fid docId row rest s').fail) with he' | he'
        · exact ⟨e0, by simp [he']⟩
        · exact ih s' e he'

/-- Every failure a row records carries either one of the two validation
messages or a formatted thrown error. -/
theorem rowDelta_fail_errors {σ : Type} (R : Remote σ) (dl : String)
    (ols : List String) (row : CsvRow) (s : σ) :
    ∀ e ∈ (rowDelta R dl ols row s).fail,
      e.error = "Missing feature_id" ∨ e.error = missingNameError dl ∨
        ∃ je, e.error = formatError je := by
  intro e he
  by_cases hfid : row.get "feature_id" = ""
  · have : e = ⟨"", dl, .createBase, "Missing feature_id", row⟩ := by
      simpa [rowDelta, hfid] using he
    exact Or.inl (by simp [this])
  · by_cases hnm : row.get dl = ""
    · have : e = ⟨row.get "feature_id", dl, .createBase, missingNameError dl, row⟩ := by
        simpa [rowDelta, hfid, hnm, missingNameError] using he
      exact Or.inr (Or.inl (by simp [this]))
    · rcases hfind : R.find s (row.get "feature_id") with ⟨fres, s1⟩
      cases fres with
      | error e0 =>
        have : e = ⟨row.get "feature_id", dl, .createBase, formatError e0, row⟩ := by
          simpa [rowDelta, hfid, hnm, hfind] using he
        exact Or.inr (Or.inr ⟨e0, by simp [this]⟩)
      | ok found =>
        cases found with
        | none =>
          rcases hcr : R.create s1 (row.get "feature_id") (row.get dl) dl with ⟨cres, s2⟩
          cases cres with
          | error e1 =>
            have : e = ⟨row.get "feature_id", dl, .createBase, formatError e1, row⟩ := by
              simpa [rowDelta, hfid, hnm, hfind, hcr] using he
            exact Or.inr (Or.inr ⟨e1, by simp [this]⟩)
          | ok doc =>
            have h' : e ∈ (localeDelta R (row.get "feature_id")
                doc.documentId row ols s2).fail := by
              simpa [rowDelta, hfid, hnm, hfind, hcr] using he
            exact Or.inr (Or.inr (localeDelta_fail_errors R _ _ row ols s2 e h'))
        | some existing =>
          rcases hup : R.upsert s1 existing.documentId dl (row.get dl) with ⟨ures, s2⟩
          cases ures with
          | error e1 =>
            have : e = ⟨row.get "feature_id", dl, .createBase, formatError e1, row⟩ := by
              simpa [rowDelta, hfid, hnm, hfind, hup] using he
            exact Or.inr (Or.inr ⟨e1, by simp [this]⟩)
          | ok updated =>
            have h' : e ∈ (localeDelta R (row.get "feature_id")
                existing.documentId row ols s2).fail := by
              simpa [rowDelta, hfid, hnm, hfind, hup] using he
            exact Or.inr (Or.inr (localeDelta_fail_errors R _ _ row ols s2 e h'))

/-- Over any row list, every recorded failure carries a validation message
or a formatted thrown error. -/
theorem deltasFail_errors {σ : Type} (R : Remote σ) (dl : String)
    (ols : List String) :
    ∀ (rows : List CsvRow) (s : σ),
      ∀ e ∈ deltasFail (rowsDeltas R dl ols rows s).1,
        e.error = "Missing feature_id" ∨ e.error = missingNameError dl ∨
          ∃ je, e.error = formatError je := by
  intro rows
  induction rows with
  | nil => intro s; simp [rowsDeltas, deltasFail]
  | cons row rest ih =>
    intro s e he
    rw [show (rowsDeltas R dl ols (row :: rest) s).1 =
        rowDelta R dl ols row s ::
          (rowsDeltas R dl ols rest (rowDelta R dl ols row s).s).1 by
      simp [rowsDeltas]] at he
    rw [deltasFail_cons] at he
    rcases List.mem_append.mp he with h' | h'
    · exact rowDelta_fail_errors R dl ols row s e h'
    · exact ih (rowDelta R dl ols row s).s e h'

/-- A non-empty CSV with a well-formed header always completes, whatever
the remote does. -/
theorem processCsv_done_of_header {σ : Type} (R : Remote σ) (s : σ)
    (r0 : CsvRow) (rest : List CsvRow) (h1 : String) (hrest : List String)
    (hh : r0.cells.map Prod.fst = "feature_id" :: h1 :: hrest) :
    ∃ rep sF tr, processCsv R s (r0 :: rest) = (.done rep sF, tr) := by
  refine ⟨(processRows R h1 hrest (r0 :: rest) ⟨s, ⟨h1, hrest, 0, [], []⟩, []⟩).report,
    (processRows R h1 hrest (r0 :: rest) ⟨s, ⟨h1, hrest, 0, [], []⟩, []⟩).s,
    (processRows R h1 hrest (r0 :: rest) ⟨s, ⟨h1, hrest, 0, [], []⟩, []⟩).trace, ?_⟩
  simp only [processCsv]
  rw [hh]
  simp

/-- The success and failure locale projections of the locale loop follow
the loop's locale order. -/
theorem localeDelta_locale_sublist {σ : Type} (R : Remote σ) (fid docId : String)
    (row : CsvRow) :
    ∀ (locales : List String) (s : σ),
      List.Sublist ((localeDelta R fid docId row locales s).succ.map
        ReportEntrySuccess.locale) locales ∧
      List.Sublist ((localeDelta R fid docId row locales s).fail.map
        ReportEntryFailure.locale) locales := by
  intro locales
  induction locales with
  | nil => intro s; simp [localeDelta]
  | cons loc rest ih =>
    intro s
    by_cases hnm : row.get loc = ""
    · constructor
      · simpa [localeDelta, hnm] using ((ih s).1.cons loc)
      · simpa [localeDelta, hnm] using ((ih s).2.cons loc)
    · rcases hup : R.upsert s docId loc (row.get loc) with ⟨res, s'⟩
      cases res with
      | ok d =>
        constructor
        · simpa [localeDelta, hnm, hup] using ((ih s').1.cons₂ loc)
        · simpa [localeDelta, hnm, hup] using ((ih s').2.cons loc)
      | error e0 =>
        constructor
        · simpa [localeDelta, hnm, hup] using ((ih s').1.cons loc)
        · simpa [localeDelta, hnm, hup] using ((ih s').2.cons₂ loc)

/-- Within one row, the success and failure locale projections follow the
column order: the default locale first, then the other locales in header
order. -/
theorem rowDelta_locale_sublist {σ : Type} (R : Remote σ) (dl : String)
    (ols : List String) (row : CsvRow) (s : σ) :
    List.Sublist ((rowDelta R dl ols row s).succ.map ReportEntrySuccess.locale)
      (dl :: ols) ∧
    List.Sublist ((rowDelta R dl ols row s).fail.map ReportEntryFailure.locale)
      (dl :: ols) := by
  by_cases hfid : row.get "feature_id" = ""
  · constructor <;> simp [rowDelta, hfid]
  · by_cases hnm : row.get dl = ""
    · constructor <;> simp [rowDelta, hfid, hnm]
    · rcases hfind : R.find s (row.get "feature_id") with ⟨fres, s1⟩
      cases fres with
      | error e0 => constructor <;> simp [rowDelta, hfid, hnm, hfind]
      | ok found =>
        cases found with
        | none =>
          rcases hcr : R.create s1 (row.get "feature_id") (row.get dl) dl with ⟨cres, s2⟩
          cases cres with
          | error e1 => constructor <;> simp [rowDelta, hfid, hnm, hfind, hcr]
          | ok doc =>
            have hsl := localeDelta_locale_sublist R (row.get "feature_id")
              doc.documentId row ols s2
            constructor
            · simpa [rowDelta, hfid, hnm, hfind, hcr] using (hsl.1.cons₂ dl)
            · simpa [rowDelta, hfid, hnm, hfind, hcr] using (hsl.2.cons dl)
        | some existing =>
          rcases hup : R.upsert s1 existing.documentId dl (row.get dl) with ⟨ures, s2⟩
          cases ures with
          | error e1 => constructor <;> simp [rowDelta, hfid, hnm, hfind, hup]
          | ok updated =>
            have hsl := localeDelta_locale_sublist R (row.get "feature_id")
              existing.documentId row ols s2
            constructor
            · simpa [rowDelta, hfid, hnm, hfind, hup] using (hsl.1.cons₂ dl)
            · simpa [rowDelta, hfid, hnm, hfind, hup] using (hsl.2.cons dl)

/-- Every delta of a run is the delta of one of its rows at some
intermediate state. -/
theorem rowsDeltas_mem {σ : Type} (R : Remote σ) (dl : String)
    (ols : List String) :
    ∀ (rows : List CsvRow) (s : σ) (d : RowDelta σ),
      d ∈ (rowsDeltas R dl ols rows s).1 →
        ∃ row s0, row ∈ rows ∧ d = rowDelta R dl ols row s0 := by
  intro rows
  induction rows with
  | nil => intro s d hd; simp [rowsDeltas] at hd
  | cons row rest ih =>
    intro s d hd
    rw [show (rowsDeltas R dl ols (row :: rest) s).1 =
        rowDelta R dl ols row s ::
          (rowsDeltas R dl ols rest (rowDelta R dl ols row s).s).1 by
      simp [rowsDeltas]] at hd
    rcases List.mem_cons.mp hd with h' | h'
    · exact ⟨row, s, List.mem_cons_self _ _, h'⟩
    · obtain ⟨row', s0, hmem, heq⟩ := ih (rowDelta R dl ols row s).s d h'
      exact ⟨row', s0, List.mem_cons_of_mem _ hmem, heq⟩

/-! ### Lemmas about the spec-modelled remote -/

/-- `setName` never changes a record's `feature_id`. -/
theorem setName_feature_id (docId locale name : String) (r : ProFeature) :
    (setName docId locale name r).feature_id = r.feature_id := by
  unfold setName
  split <;> rfl

/-- An upsert never makes a `feature_id` undiscoverable. -/
theorem strapiUpsert_hasFid (s : StrapiState) (docId locale name fid : String)
    (h : hasFid s fid) : hasFid (strapiUpsert s docId locale name).2 fid := by
  obtain ⟨r, hr, hrf⟩ := h
  unfold strapiUpsert
  cases hbase : s.records.find? (isDoc docId) with
  | none => exact ⟨r, hr, hrf⟩
  | some base =>
    cases hvar : s.records.find? (isVariant docId locale) with
    | some v =>
      refine ⟨setName docId locale name r, ?_, ?_⟩
      · simpa [setName] using List.mem_map_of_mem (setName docId locale name) hr
      · rw [setName_feature_id]; exact hrf
    | none =>
      exact ⟨r, List.mem_append_left _ hr, hrf⟩

/-- A create never makes a `feature_id` undiscoverable. -/
theorem strapiCreate_hasFid (s : StrapiState) (f n l fid : String)
    (h : hasFid s fid) : hasFid (strapiCreate s f n l).2 fid := by
  obtain ⟨r, hr, hrf⟩ := h
  exact ⟨r, List.mem_append_left _ hr, hrf⟩

/-- A create makes its own `feature_id` discoverable. -/
theorem strapiCreate_adds (s : StrapiState) (f n l : String) :
    hasFid (strapiCreate s f n l).2 f := by
  refine ⟨⟨s.nextId, "doc-" ++ toString s.nextId, f, n, "", "", none, l⟩, ?_, rfl⟩
  exact List.mem_append_right _ (List.mem_singleton.mpr rfl)

/-- The locale loop over the spec-modelled remote never makes a
`feature_id` undiscoverable. -/
theorem localeDelta_hasFid (f docId : String) (row : CsvRow) (fid : String) :
    ∀ (locales : List String) (s : StrapiState), hasFid s fid →
      hasFid (localeDelta strapiRemote f docId row locales s).s fid := by
  intro locales
  induction locales with
  | nil => intro s h; simpa [localeDelta] using h
  | cons loc rest ih =>
    intro s h
    by_cases hnm : row.get loc = ""
    · simpa [localeDelta, hnm] using ih s h
    · rcases hup : strapiRemote.upsert s docId loc (row.get loc) with ⟨res, s'⟩
      have hs' : s' = (strapiUpsert s docId loc (row.get loc)).2 :=
        (congrArg Prod.snd hup).symm
      have h' : hasFid s' fid := by
        rw [hs']; exact strapiUpsert_hasFid s docId loc (row.get loc) fid h
      cases res with
      | ok d => simpa [localeDelta, hnm, hup] using ih s' h'
      | error e => simpa [localeDelta, hnm, hup] using ih s' h'

/-- One row of the run over the spec-modelled remote never makes a
`feature_id` undiscoverable. -/
theorem rowDelta_hasFid (dl : String) (ols : List String) (row : CsvRow)
    (fid : String) (s : StrapiState) (h : hasFid s fid) :
    hasFid (rowDelta strapiRemote dl ols row s).s fid := by
  by_cases hfid : row.get "feature_id" = ""
  · simpa [rowDelta, hfid] using h
  · by_cases hnm : row.get dl = ""
    · simpa [rowDelta, hfid, hnm] using h
    · cases hopt : s.records.find? (isFid (row.get "feature_id")) with
      | none =>
        have hcr : hasFid (strapiCreate s (row.get "feature_id") (row.get dl) dl).2 fid :=
          strapiCreate_hasFid s _ _ dl fid h
        simpa [rowDelta, hfid, hnm, strapiRemote, strapiFind, strapiCreate, hopt] using
          localeDelta_hasFid (row.get "feature_id") _ row fid ols _ hcr
      | some existing =>
        rcases hup : strapiUpsert s existing.documentId dl (row.get dl) with ⟨res, s2⟩
        have hs2 : s2 = (strapiUpsert s existing.documentId dl (row.get dl)).2 :=
          (congrArg Prod.snd hup).symm
        have h2 : hasFid s2 fid := by
          rw [hs2]; exact strapiUpsert_hasFid s _ dl _ fid h
        cases res with
        | error e =>
          simpa [rowDelta, hfid, hnm, strapiRemote, strapiFind, hopt, hup] using h2
        | ok updated =>
          simpa [rowDelta, hfid, hnm, strapiRemote, strapiFind, hopt, hup] using
            localeDelta_hasFid (row.get "feature_id") _ row fid ols s2 h2

/-- The whole run over the spec-modelled remote never makes a `feature_id`
undiscoverable. -/
theorem rowsDeltas_hasFid (dl : String) (ols : List String) (fid : String) :
    ∀ (rows : List CsvRow) (s : StrapiState), hasFid s fid →
      hasFid (rowsDeltas strapiRemote dl ols rows s).2 fid := by
  intro rows
  induction rows with
  | nil => intro s h; simpa [rowsDeltas] using h
  | cons row rest ih =>
    intro s h
    have : (rowsDeltas strapiRemote dl ols (row :: rest) s).2 =
        (rowsDeltas strapiRemote dl ols rest (rowDelta strapiRemote dl ols row s).s).2 := by
      simp [rowsDeltas]
    rw [this]
    exact ih _ (rowDelta_hasFid dl ols row fid s h)

/-- Every success entry of a row's delta carries the row's `feature_id`,
and its presence shows the row passed both checks. -/
theorem rowDelta_succ_featureId {σ : Type} (R : Remote σ) (dl : String)
    (ols : List String) (row : CsvRow) (s : σ) :
    ∀ e ∈ (rowDelta R dl ols row s).succ,
      e.featureId = row.get "feature_id" ∧
        row.get "feature_id" ≠ "" ∧ row.get dl ≠ "" := by
  intro e he
  by_cases hfid : row.get "feature_id" = ""
  · simp [rowDelta, hfid] at he
  · by_cases hnm : row.get dl = ""
    · simp [rowDelta, hfid, hnm] at he
    · refine ?_
      rcases hfind : R.find s (row.get "feature_id") with ⟨fres, s1⟩
      cases fres with
      | error e0 => simp [rowDelta, hfid, hnm, hfind] at he
      | ok found =>
        cases found with
        | none =>
          rcases hcr : R.create s1 (row.get "feature_id") (row.get dl) dl with ⟨cres, s2⟩
          cases cres with
          | error e1 => simp [rowDelta, hfid, hnm, hfind, hcr] at he
          | ok doc =>
            rcases (by simpa [rowDelta, hfid, hnm, hfind, hcr] using he :
                e = ⟨row.get "feature_id", dl, .createBase, doc.documentId, doc.name⟩ ∨
                  e ∈ (localeDelta R (row.get "feature_id")
                    doc.documentId row ols s2).succ) with h' | h'
            · exact ⟨by simp [h'], hfid, hnm⟩
            · exact ⟨((localeDelta_entries R _ _ row ols s2).1 e h').2.1, hfid, hnm⟩
        | some existing =>
          rcases hup : R.upsert s1 existing.documentId dl (row.get dl) with ⟨ures, s2⟩
          cases ures with
          | error e1 => simp [rowDelta, hfid, hnm, hfind, hup] at he
          | ok updated =>
            rcases (by simpa [rowDelta, hfid, hnm, hfind, hup] using he :
                e = ⟨row.get "feature_id", dl, .updateBase, existing.documentId,
                  updated.name⟩ ∨
                  e ∈ (localeDelta R (row.get "feature_id")
                    existing.documentId row ols s2).succ) with h' | h'
            · exact ⟨by simp [h'], hfid, hnm⟩
            · exact ⟨((localeDelta_entries R _ _ row ols s2).1 e h').2.1, hfid, hnm⟩

/-- After processing a row that passes both checks over the spec-modelled
remote, the row's `feature_id` is discoverable. -/
theorem rowDelta_establishes (dl : String) (ols : List String) (row : CsvRow)
    (s : StrapiState) (hfid : row.get "feature_id" ≠ "")
    (hnm : row.get dl ≠ "") :
    hasFid (rowDelta strapiRemote dl ols row s).s (row.get "feature_id") := by
  cases hopt : s.records.find? (isFid (row.get "feature_id")) with
  | none =>
    have hcr : hasFid (strapiCreate s (row.get "feature_id") (row.get dl) dl).2
        (row.get "feature_id") := strapiCreate_adds s _ _ dl
    simpa [rowDelta, hfid, hnm, strapiRemote, strapiFind, strapiCreate, hopt] using
      localeDelta_hasFid (row.get "feature_id") _ row (row.get "feature_id") ols _ hcr
  | some existing =>
    have hmem : existing ∈ s.records := List.mem_of_find?_eq_some hopt
    have hfeat : existing.feature_id = row.get "feature_id" := by
      have := List.find?_some hopt
      simpa [isFid] using this
    have h : hasFid s (row.get "feature_id") := ⟨existing, hmem, hfeat⟩
    rcases hup : strapiUpsert s existing.documentId dl (row.get dl) with ⟨res, s2⟩
    have hs2 : s2 = (strapiUpsert s existing.documentId dl (row.get dl)).2 :=
      (congrArg Prod.snd hup).symm
    have h2 : hasFid s2 (row.get "feature_id") := by
      rw [hs2]; exact strapiUpsert_hasFid s _ dl _ _ h
    cases res with
    | error e =>
      simpa [rowDelta, hfid, hnm, strapiRemote, strapiFind, hopt, hup] using h2
    | ok updated =>
      simpa [rowDelta, hfid, hnm, strapiRemote, strapiFind, hopt, hup] using
        localeDelta_hasFid (row.get "feature_id") _ row (row.get "feature_id") ols s2 h2

/-- After a full run over the spec-modelled remote, every success entry's
`feature_id` is discoverable in the final state. -/
theorem deltasSucc_hasFid (dl : String) (ols : List String) :
    ∀ (rows : List CsvRow) (s : StrapiState),
      ∀ e ∈ deltasSucc (rowsDeltas strapiRemote dl ols rows s).1,
        hasFid (rowsDeltas strapiRemote dl ols rows s).2 e.featureId := by
  intro rows
  induction rows with
  | nil => intro s e he; simp [rowsDeltas, deltasSucc] at he
  | cons row rest ih =>
    intro s e he
    have hsplit : (rowsDeltas strapiRemote dl ols (row :: rest) s).1 =
        rowDelta strapiRemote dl ols row s ::
          (rowsDeltas strapiRemote dl ols rest
            (rowDelta strapiRemote dl ols row s).s).1 := by
      simp [rowsDeltas]
    have hstate : (rowsDeltas strapiRemote dl ols (row :: rest) s).2 =
        (rowsDeltas strapiRemote dl ols rest
          (rowDelta strapiRemote dl ols row s).s).2 := by
      simp [rowsDeltas]
    rw [hsplit, deltasSucc_cons] at he
    rw [hstate]
    rcases List.mem_append.mp he with h' | h'
    · obtain ⟨hfeq, hfid, hnm⟩ := rowDelta_succ_featureId strapiRemote dl ols row s e h'
      rw [hfeq]
      exact rowsDeltas_hasFid dl ols _ rest _
        (rowDelta_establishes dl ols row s hfid hnm)
    · exact ih _ e h'

/-- Every success entry of a run comes from a row of the CSV that passes
both checks and carries that row's `feature_id`. -/
theorem deltasSucc_row_exists {σ : Type} (R : Remote σ) (dl : String)
    (ols : List String) :
    ∀ (rows : List CsvRow) (s : σ),
      ∀ e ∈ deltasSucc (rowsDeltas R dl ols rows s).1,
        ∃ row ∈ rows, row.get "feature_id" = e.featureId ∧
          row.get "feature_id" ≠ "" ∧ row.get dl ≠ "" := by
  intro rows
  induction rows with
  | nil => intro s e he; simp [rowsDeltas, deltasSucc] at he
  | cons row rest ih =>
    intro s e he
    rw [show (rowsDeltas R dl ols (row :: rest) s).1 =
        rowDelta R dl ols row s ::
          (rowsDeltas R dl ols rest (rowDelta R dl ols row s).s).1 by
      simp [rowsDeltas], deltasSucc_cons] at he
    rcases List.mem_append.mp he with h' | h'
    · obtain ⟨hfeq, hfid, hnm⟩ := rowDelta_succ_featureId R dl ols row s e h'
      exact ⟨row, List.mem_cons_self _ _, hfeq.symm, hfid, hnm⟩
    · obtain ⟨row', hmem, hrest⟩ := ih _ e h'
      exact ⟨row', List.mem_cons_of_mem _ hmem, hrest⟩

/-- A discoverable `feature_id` is found by the spec-modelled find. -/
theorem strapiFind_some_of_hasFid (s : StrapiState) (fid : String)
    (h : hasFid s fid) :
    ∃ r, s.records.find? (isFid fid) = some r ∧ r ∈ s.records ∧
      r.feature_id = fid := by
  obtain ⟨r0, hr0, hf0⟩ := h
  have hsome : (s.records.find? (isFid fid)).isSome = true := by
    rw [List.find?_isSome]
    exact ⟨r0, hr0, by simp [isFid, hf0]⟩
  rcases hfind : s.records.find? (isFid fid) with _ | r
  · rw [hfind] at hsome; simp at hsome
  · refine ⟨r, rfl, List.mem_of_find?_eq_some hfind, ?_⟩
    have := List.find?_some hfind
    simpa [isFid] using this

/-- An upsert on the `documentId` of a present record always succeeds. -/
theorem strapiUpsert_ok_of_mem (s : StrapiState) (r : ProFeature)
    (locale name : String) (hr : r ∈ s.records) :
    ∃ v s2, strapiUpsert s r.documentId locale name = (.ok v, s2) := by
  have hsome : (s.records.find? (isDoc r.documentId)).isSome = true := by
    rw [List.find?_isSome]
    exact ⟨r, hr, by simp [isDoc]⟩
  rcases hbase : s.records.find? (isDoc r.documentId) with _ | base
  · rw [hbase] at hsome; simp at hsome
  · cases hvar : s.records.find? (isVariant r.documentId locale) with
    | some v =>
      exact ⟨{ v with name := name },
        ⟨s.records.map (setName r.documentId locale name), s.nextId⟩,
        by simp [strapiUpsert, hbase, hvar]⟩
    | none =>
      exact ⟨⟨s.nextId, r.documentId, base.feature_id, name, "", "", none, locale⟩,
        ⟨s.records ++ [⟨s.nextId, r.documentId, base.feature_id, name, "", "",
          none, locale⟩], s.nextId + 1⟩,
        by simp [strapiUpsert, hbase, hvar]⟩

/-- Over the spec-modelled remote, a row that passes both checks and whose
`feature_id` is already discoverable takes the update path: its first
success entry has action `update-base` and the row's `feature_id`. -/
theorem rowDelta_update_head (dl : String) (ols : List String) (row : CsvRow)
    (s : StrapiState) (hfid : row.get "feature_id" ≠ "")
    (hnm : row.get dl ≠ "") (h : hasFid s (row.get "feature_id")) :
    ∃ e tail, (rowDelta strapiRemote dl ols row s).succ = e :: tail ∧
      e.action = Action.updateBase ∧ e.featureId = row.get "feature_id" := by
  obtain ⟨r, hfind, hrmem, hrfeat⟩ := strapiFind_some_of_hasFid s _ h
  obtain ⟨v, s2, hup⟩ := strapiUpsert_ok_of_mem s r dl (row.get dl) hrmem
  refine ⟨⟨row.get "feature_id", dl, .updateBase, r.documentId, v.name⟩,
    (localeDelta strapiRemote (row.get "feature_id") r.documentId row ols s2).succ,
    ?_, rfl, rfl⟩
  simp [rowDelta, hfid, hnm, strapiRemote, strapiFind, hfind, hup]

/-- Run-2 existence: a row of the CSV that passes both checks and whose
`feature_id` is discoverable at the start contributes an `update-base`
success entry for that `feature_id`. -/
theorem run2_update_exists (dl : String) (ols : List String) :
    ∀ (rows : List CsvRow) (s : StrapiState) (row : CsvRow), row ∈ rows →
      row.get "feature_id" ≠ "" → row.get dl ≠ "" →
      hasFid s (row.get "feature_id") →
      ∃ e ∈ deltasSucc (rowsDeltas strapiRemote dl ols rows s).1,
        e.featureId = row.get "feature_id" ∧ e.action = Action.updateBase := by
  intro rows
  induction rows with
  | nil => intro s row hmem; simp at hmem
  | cons r0 rest ih =>
    intro s row hmem hfid hnm h
    rw [show (rowsDeltas strapiRemote dl ols (r0 :: rest) s).1 =
        rowDelta strapiRemote dl ols r0 s ::
          (rowsDeltas strapiRemote dl ols rest
            (rowDelta strapiRemote dl ols r0 s).s).1 by
      simp [rowsDeltas], deltasSucc_cons]
    rcases List.mem_cons.mp hmem with h0 | h0
    · subst h0
      obtain ⟨e, tail, hsucc, hact, hfeat⟩ :=
        rowDelta_update_head dl ols row s hfid hnm h
      refine ⟨e, List.mem_append_left _ ?_, hfeat, hact⟩
      rw [hsucc]
      exact List.mem_cons_self _ _
    · obtain ⟨e, hemem, hrest⟩ := ih _ row h0 hfid hnm
        (rowDelta_hasFid dl ols r0 _ s h)
      exact ⟨e, List.mem_append_right _ hemem, hrest⟩

/-- Over the spec-modelled remote, no row whose `feature_id` is already
discoverable produces a `create-base` success for it. -/
theorem rowDelta_no_create_of_hasFid (dl : String) (ols : List String)
    (row : CsvRow) (s : StrapiState) (fid : String) (h : hasFid s fid) :
    ∀ e ∈ (rowDelta strapiRemote dl ols row s).succ,
      e.featureId = fid → e.action ≠ Action.createBase := by
  intro e he hfeq
  by_cases hfid : row.get "feature_id" = ""
  · simp [rowDelta, hfid] at he
  · by_cases hnm : row.get dl = ""
    · simp [rowDelta, hfid, hnm] at he
    · cases hopt : s.records.find? (isFid (row.get "feature_id")) with
      | none =>
        rcases (by
            simpa [rowDelta, hfid, hnm, strapiRemote, strapiFind, strapiCreate, hopt]
              using he :
            e = ⟨row.get "feature_id", dl, .createBase,
                "doc-" ++ toString s.nextId, row.get dl⟩ ∨
              e ∈ (localeDelta strapiRemote (row.get "feature_id")
                ("doc-" ++ toString s.nextId) row ols
                ⟨s.records ++ [⟨s.nextId, "doc-" ++ toString s.nextId,
                  row.get "feature_id", row.get dl, "", "", none, dl⟩],
                  s.nextId + 1⟩).succ) with h' | h'
        · have hnone : ∀ x ∈ s.records, ¬ isFid (row.get "feature_id") x = true :=
            List.find?_eq_none.mp hopt
          obtain ⟨r0, hr0, hf0⟩ := h
          have : e.featureId = row.get "feature_id" := by simp [h']
          rw [hfeq] at this
          exact (hnone r0 hr0 (by simp [isFid, hf0, this])).elim
        · have := ((localeDelta_entries strapiRemote _ _ row ols _).1 e h').1
          intro hact
          rw [hact] at this
          exact Action.noConfusion this
      | some existing =>
        rcases hup : strapiUpsert s existing.documentId dl (row.get dl) with ⟨res, s2⟩
        cases res with
        | error e0 =>
          simp [rowDelta, hfid, hnm, strapiRemote, strapiFind, hopt, hup] at he
        | ok updated =>
          rcases (by
              simpa [rowDelta, hfid, hnm, strapiRemote, strapiFind, hopt, hup]
                using he :
              e = ⟨row.get "feature_id", dl, .updateBase, existing.documentId,
                  updated.name⟩ ∨
                e ∈ (localeDelta strapiRemote (row.get "feature_id")
                  existing.documentId row ols s2).succ) with h' | h'
          · intro hact
            rw [h'] at hact
            exact Action.noConfusion hact
          · have := ((localeDelta_entries strapiRemote _ _ row ols s2).1 e h').1
            intro hact
            rw [hact] at this
            exact Action.noConfusion this

/-- Run-2 absence: once a `feature_id` is discoverable, no later run entry
for it is a `create-base` success. -/
theorem run2_no_create (dl : String) (ols : List String) (fid : String) :
    ∀ (rows : List CsvRow) (s : StrapiState), hasFid s fid →
      ∀ e ∈ deltasSucc (rowsDeltas strapiRemote dl ols rows s).1,
        e.featureId = fid → e.action ≠ Action.createBase := by
  intro rows
  induction rows with
  | nil => intro s h e he; simp [rowsDeltas, deltasSucc] at he
  | cons row rest ih =>
    intro s h e he hfeq
    rw [show (rowsDeltas strapiRemote dl ols (row :: rest) s).1 =
        rowDelta strapiRemote dl ols row s ::
          (rowsDeltas strapiRemote dl ols rest
            (rowDelta strapiRemote dl ols row s).s).1 by
      simp [rowsDeltas], deltasSucc_cons] at he
    rcases List.mem_append.mp he with h' | h'
    · exact rowDelta_no_create_of_hasFid dl ols row s fid h e h' hfeq
    · exact ih _ (rowDelta_hasFid dl ols row fid s h) e h' hfeq

/-! ### The claims -/

/-- C7: a row with an empty `feature_id` appends exactly one failure entry,
with action `create-base` and error "Missing feature_id" (and empty
`featureId`), makes no remote call (the trace is unchanged), leaves the
successes and the remote state untouched, and is not counted in
`processedRows`. -/
theorem missing_feature_id_row {σ : Type} (R : Remote σ) (dl : String)
    (ols : List String) (row : CsvRow) (st : RowState σ)
    (h : row.get "feature_id" = "") :
    processRow R dl ols row st =
      { st with report := { st.report with
          failures := st.report.failures ++
            [⟨"", dl, .createBase, "Missing feature_id", row⟩] } } := by
  simp [processRow, h]

/-- Witness for C7 at a concrete row and remote. -/
theorem missing_feature_id_row_witness :
    rowNoFid.get "feature_id" = "" ∧
    processRow strapiRemote "en" ["vi"] rowNoFid initStrapi =
      { initStrapi with report := { initStrapi.report with
          failures := initStrapi.report.failures ++
            [⟨"", "en", .createBase, "Missing feature_id", rowNoFid⟩] } } :=
  ⟨by decide, missing_feature_id_row strapiRemote "en" ["vi"] rowNoFid initStrapi (by decide)⟩

/-- C10: a CSV that parses to zero data rows (whatever its header line
says, malformed or not) makes `processCsv` return early: no remote call is
made, no report is written, and the outcome is the early return, whose exit
code is 0 (not the fatal bad-header exit). -/
theorem no_rows_early_return {σ : Type} (R : Remote σ) (s : σ)
    (headers : List String) :
    processCsv R s (parseCsv headers []) = (ProcessOutcome.noRows, []) ∧
    exitCodeOf (processCsv R s (parseCsv headers [])).1 = 0 ∧
    reportWritten (processCsv R s (parseCsv headers [])).1 = false := by
  simp [parseCsv, processCsv, exitCodeOf, reportWritten]

/-- C5: for an additional locale column whose cell in this row is empty,
processing the row produces no report entry (success or failure) for that
locale and issues no remote call targeting it: everything new in the report
and the trace concerns other locales. -/
theorem empty_locale_cell_skipped {σ : Type} (R : Remote σ) (dl : String)
    (ols : List String) (row : CsvRow) (st : RowState σ) (loc : String)
    (hmem : loc ∈ ols) (hcell : row.get loc = "") (hne : loc ≠ dl) :
    (∀ e ∈ (processRow R dl ols row st).report.successes,
        e ∈ st.report.successes ∨ e.locale ≠ loc) ∧
    (∀ e ∈ (processRow R dl ols row st).report.failures,
        e ∈ st.report.failures ∨ e.locale ≠ loc) ∧
    (∀ c ∈ (processRow R dl ols row st).trace,
        c ∈ st.trace ∨ callAvoids loc c) := by
  rw [processRow_eq_applyDelta]
  obtain ⟨hS, hF, hC⟩ := rowDelta_locales R dl ols row st.s
  refine ⟨?_, ?_, ?_⟩
  · intro e he
    rcases (by simpa [applyDelta] using he :
        e ∈ st.report.successes ∨ e ∈ (rowDelta R dl ols row st.s).succ) with h' | h'
    · exact Or.inl h'
    · refine Or.inr ?_
      rcases hS e h' with h'' | h''
      · intro hh; rw [hh] at h''; exact hne h''
      · intro hh; rw [hh] at h''; exact h'' hcell
  · intro e he
    rcases (by simpa [applyDelta] using he :
        e ∈ st.report.failures ∨ e ∈ (rowDelta R dl ols row st.s).fail) with h' | h'
    · exact Or.inl h'
    · refine Or.inr ?_
      rcases hF e h' with h'' | h''
      · intro hh; rw [hh] at h''; exact hne h''
      · intro hh; rw [hh] at h''; exact h'' hcell
  · intro c hc
    rcases (by simpa [applyDelta] using hc :
        c ∈ st.trace ∨ c ∈ (rowDelta R dl ols row st.s).calls) with h' | h'
    · exact Or.inl h'
    · refine Or.inr ?_
      intro hco
      rcases hC c h' loc hco with h'' | h''
      · exact hne h''
      · exact h'' hcell

/-- Witness for C5: the row `F2,World,` over the spec-modelled remote with
locale column `vi` empty. -/
theorem empty_locale_cell_skipped_witness :
    "vi" ∈ ["vi"] ∧ rowF2.get "vi" = "" ∧ "vi" ≠ "en" ∧
    ((∀ e ∈ (processRow strapiRemote "en" ["vi"] rowF2 initStrapi).report.successes,
        e ∈ initStrapi.report.successes ∨ e.locale ≠ "vi") ∧
     (∀ e ∈ (processRow strapiRemote "en" ["vi"] rowF2 initStrapi).report.failures,
        e ∈ initStrapi.report.failures ∨ e.locale ≠ "vi") ∧
     (∀ c ∈ (processRow strapiRemote "en" ["vi"] rowF2 initStrapi).trace,
        c ∈ initStrapi.trace ∨ callAvoids "vi" c)) :=
  ⟨by decide, by decide, by decide,
    empty_locale_cell_skipped strapiRemote "en" ["vi"] rowF2 initStrapi "vi"
      (by decide) (by decide) (by decide)⟩

/-- C1, counterexample: on a remote where the find locates an existing
record and the default-locale upsert then throws, the recorded failure has
action `create-base`, not `update-base` as the claim states (the shared
catch block always records `create-base`); the trace shows the find and the
failed base upsert, and no further locale call. -/
theorem update_base_failure_action_counterexample :
    failActionsOf (processCsv findSomeUpsertFailRemote () [rowF1]).1 =
      [Action.createBase] ∧
    (processCsv findSomeUpsertFailRemote () [rowF1]).2 =
      [RemoteCall.find "F1", RemoteCall.upsert "doc-F1" "en" "Hello"] := by
  exact ⟨by decide, by decide⟩

/-- C1, amended: when the find locates an existing record and the
default-locale upsert throws, the row contributes exactly one failure entry
— with action `create-base` — and nothing else: no success entry, no locale
upserts (the remaining locales are skipped), no processed-row increment. -/
theorem update_base_failure_records_create_base {σ : Type} (R : Remote σ)
    (dl : String) (ols : List String) (row : CsvRow) (st : RowState σ)
    (existing : ProFeature) (e : JsErr) (s1 s2 : σ)
    (hfid : row.get "feature_id" ≠ "") (hnm : row.get dl ≠ "")
    (hfind : R.find st.s (row.get "feature_id") = (.ok (some existing), s1))
    (hup : R.upsert s1 existing.documentId dl (row.get dl) = (.error e, s2)) :
    processRow R dl ols row st =
      { s := s2
        report := { st.report with
          failures := st.report.failures ++
            [⟨row.get "feature_id", dl, .createBase, formatError e, row⟩] }
        trace := st.trace ++
          [.find (row.get "feature_id"),
           .upsert existing.documentId dl (row.get dl)] } := by
  simp [processRow, hfid, hnm, hfind, hup]

/-- Witness for the amended C1 at a concrete row and remote. -/
theorem update_base_failure_records_create_base_witness :
    rowF1.get "feature_id" ≠ "" ∧ rowF1.get "en" ≠ "" ∧
    findSomeUpsertFailRemote.find (initState "en" ["vi"]).s (rowF1.get "feature_id") =
      (.ok (some demoDoc), ()) ∧
    findSomeUpsertFailRemote.upsert () demoDoc.documentId "en" (rowF1.get "en") =
      (.error (.errorInstance "boom"), ()) ∧
    processRow findSomeUpsertFailRemote "en" ["vi"] rowF1 (initState "en" ["vi"]) =
      { s := ()
        report := { (initState "en" ["vi"]).report with
          failures := (initState "en" ["vi"]).report.failures ++
            [⟨rowF1.get "feature_id", "en", .createBase,
              formatError (.errorInstance "boom"), rowF1⟩] }
        trace := (initState "en" ["vi"]).trace ++
          [.find (rowF1.get "feature_id"),
           .upsert demoDoc.documentId "en" (rowF1.get "en")] } :=
  ⟨by decide, by decide, rfl, rfl,
    update_base_failure_records_create_base findSomeUpsertFailRemote "en" ["vi"]
      rowF1 (initState "en" ["vi"]) demoDoc (.errorInstance "boom") () ()
      (by decide) (by decide) rfl rfl⟩

/-- C4: when the base step of a row throws (find, create, or default-locale
update), the row contributes no success entry at all — in particular no
`upsert-locale` entry, success or failure — nothing is counted as
processed, and the loop goes on to the next row. -/
theorem base_failure_skips_locales {σ : Type} (R : Remote σ) (dl : String)
    (ols : List String) (row : CsvRow) (st : RowState σ) (rest : List CsvRow)
    (hfail : baseStepFails R st.s (row.get "feature_id") (row.get dl) dl) :
    (processRow R dl ols row st).report.successes = st.report.successes ∧
    (∀ e ∈ (processRow R dl ols row st).report.failures,
        e ∈ st.report.failures ∨ e.action ≠ Action.upsertLocale) ∧
    (processRow R dl ols row st).report.processedRows = st.report.processedRows ∧
    processRows R dl ols (row :: rest) st =
      processRows R dl ols rest (processRow R dl ols row st) := by
  obtain ⟨hsucc, hfailAct, hinc⟩ := rowDelta_baseStepFails R dl ols row st.s hfail
  refine ⟨?_, ?_, ?_, rfl⟩
  · rw [processRow_eq_applyDelta]; simp [applyDelta, hsucc]
  · rw [processRow_eq_applyDelta]
    intro e he
    rcases (by simpa [applyDelta] using he :
        e ∈ st.report.failures ∨ e ∈ (rowDelta R dl ols row st.s).fail) with h' | h'
    · exact Or.inl h'
    · refine Or.inr ?_
      rw [hfailAct e h']
      decide
  · rw [processRow_eq_applyDelta]; simp [applyDelta, hinc]

/-- Witness for C4: the find call throws on `findFailRemote`. -/
theorem base_failure_skips_locales_witness :
    baseStepFails findFailRemote (initState "en" ["vi"]).s
      (rowF1.get "feature_id") (rowF1.get "en") "en" ∧
    ((processRow findFailRemote "en" ["vi"] rowF1 (initState "en" ["vi"])).report.successes =
        (initState "en" ["vi"]).report.successes ∧
     (∀ e ∈ (processRow findFailRemote "en" ["vi"] rowF1 (initState "en" ["vi"])).report.failures,
        e ∈ (initState "en" ["vi"]).report.failures ∨ e.action ≠ Action.upsertLocale) ∧
     (processRow findFailRemote "en" ["vi"] rowF1 (initState "en" ["vi"])).report.processedRows =
        (initState "en" ["vi"]).report.processedRows ∧
     processRows findFailRemote "en" ["vi"] (rowF1 :: [rowF2]) (initState "en" ["vi"]) =
       processRows findFailRemote "en" ["vi"] [rowF2]
         (processRow findFailRemote "en" ["vi"] rowF1 (initState "en" ["vi"]))) :=
  ⟨by simp [baseStepFails, findFailRemote],
    base_failure_skips_locales findFailRemote "en" ["vi"] rowF1
      (initState "en" ["vi"]) [rowF2] (by simp [baseStepFails, findFailRemote])⟩

/-- C2, counterexample: one row that passes both presence checks but whose
base find call throws is not counted: `processedRows` is 0 while the count
of rows passing both checks is 1. -/
theorem processed_rows_counterexample :
    processedRowsOf (processCsv findFailRemote () [rowF1]).1 = 0 ∧
    countValidRows "en" [rowF1] = 1 :=
  ⟨by decide, by decide⟩

/-- C2, amended: `processedRows` counts the rows whose base step succeeded —
equivalently, it equals the number of `create-base`/`update-base` success
entries; rows whose base write or find failed are not counted, while
locale-write failures do not affect the count. -/
theorem processed_rows_eq_base_successes {σ : Type} (R : Remote σ) (s : σ)
    (rows : List CsvRow) (rep : SyncReport) (sF : σ) (tr : List RemoteCall)
    (h : processCsv R s rows = (.done rep sF, tr)) :
    rep.processedRows = (rep.successes.filter succIsBase).length := by
  obtain ⟨r0, rest, h1, hrest, hrows, hh, hrep, hsF, htr⟩ :=
    processCsv_done_inv R s rows rep sF tr h
  subst hrep
  simpa using deltasInc_eq_base_successes R h1 hrest rows s

/-- Witness for the amended C2: the two-row scenario run over the
spec-modelled remote. -/
theorem processed_rows_eq_base_successes_witness :
    processCsv strapiRemote emptyStrapi [rowF1, rowF2] =
      (ProcessOutcome.done reportF1F2 stateF1F2, traceF1F2) ∧
    reportF1F2.processedRows = (reportF1F2.successes.filter succIsBase).length :=
  ⟨by decide,
    processed_rows_eq_base_successes strapiRemote emptyStrapi [rowF1, rowF2]
      reportF1F2 stateF1F2 traceF1F2 (by decide)⟩

/-- C3: a row with a non-empty `feature_id` and a non-empty default-locale
name contributes exactly one base-action entry (action `create-base` or
`update-base`) across successes and failures combined: the combined base
entry count grows by exactly one. -/
theorem valid_row_single_base_entry {σ : Type} (R : Remote σ) (dl : String)
    (ols : List String) (row : CsvRow) (st : RowState σ)
    (hfid : row.get "feature_id" ≠ "") (hnm : row.get dl ≠ "") :
    baseEntryCount (processRow R dl ols row st).report =
      baseEntryCount st.report + 1 := by
  rw [processRow_eq_applyDelta]
  have h := (rowDelta_base_count R dl ols row st.s).1
  simp only [baseEntryCount, applyDelta, List.filter_append, List.length_append]
  omega

/-- Witness for C3 at a concrete row and remote. -/
theorem valid_row_single_base_entry_witness :
    rowF1.get "feature_id" ≠ "" ∧ rowF1.get "en" ≠ "" ∧
    baseEntryCount (processRow strapiRemote "en" ["vi"] rowF1 initStrapi).report =
      baseEntryCount initStrapi.report + 1 :=
  ⟨by decide, by decide,
    valid_row_single_base_entry strapiRemote "en" ["vi"] rowF1 initStrapi
      (by decide) (by decide)⟩

/-- C9: every remote-call error is caught and recorded, never fatal: each
failure entry of a completed run carries one of the two validation messages
or a formatted thrown error; the same CSV completes (and writes a report)
under any other remote behaviour, however its calls throw; and `formatError`
prefers the structured body's name and message when present and otherwise
falls back to a stringification of the payload (or the `Error` message). -/
theorem remote_errors_recorded_not_fatal {σ σ' : Type} (R : Remote σ)
    (R' : Remote σ') (s : σ) (s' : σ') (rows : List CsvRow)
    (rep : SyncReport) (sF : σ) (tr : List RemoteCall)
    (h : processCsv R s rows = (.done rep sF, tr)) :
    (∀ e ∈ rep.failures,
      e.error = "Missing feature_id" ∨
        e.error = missingNameError rep.defaultLocale ∨
        ∃ je, e.error = formatError je) ∧
    (∃ rep' sF' tr', processCsv R' s' rows = (.done rep' sF', tr')) ∧
    (∀ n m sb, n ≠ "" → m ≠ "" →
      formatError (.response (.withError n m sb)) = n ++ ": " ++ m) ∧
    (∀ p a, formatError (JsErr.plain (some p) a) = p) ∧
    (∀ m, formatError (JsErr.errorInstance m) = m) := by
  obtain ⟨r0, rest, h1, hrest, hrows, hh, hrep, hsF, htr⟩ :=
    processCsv_done_inv R s rows rep sF tr h
  subst hrows
  subst hrep
  refine ⟨?_, ?_, ?_, ?_, ?_⟩
  · intro e he
    exact deltasFail_errors R h1 hrest (r0 :: rest) s e (by simpa using he)
  · exact processCsv_done_of_header R' s' r0 rest h1 hrest hh
  · intro n m sb hn hm
    simp [formatError, hn, hm]
  · intro p a
    simp [formatError]
  · intro m
    simp [formatError]

/-- Witness for C9: a run where the find throws, next to a run of the same
CSV where nothing throws. -/
theorem remote_errors_recorded_not_fatal_witness :
    processCsv findFailRemote () [rowF1] =
      (ProcessOutcome.done reportFindFail (), [RemoteCall.find "F1"]) ∧
    ((∀ e ∈ reportFindFail.failures,
        e.error = "Missing feature_id" ∨
          e.error = missingNameError reportFindFail.defaultLocale ∨
          ∃ je, e.error = formatError je) ∧
     (∃ rep' sF' tr',
        processCsv strapiRemote emptyStrapi [rowF1] = (.done rep' sF', tr')) ∧
     (∀ n m sb, n ≠ "" → m ≠ "" →
        formatError (.response (.withError n m sb)) = n ++ ": " ++ m) ∧
     (∀ p a, formatError (JsErr.plain (some p) a) = p) ∧
     (∀ m, formatError (JsErr.errorInstance m) = m)) :=
  ⟨by decide,
    remote_errors_recorded_not_fatal findFailRemote strapiRemote () emptyStrapi
      [rowF1] reportFindFail () [RemoteCall.find "F1"] (by decide)⟩

/-- C8: the report lists of a completed run follow CSV order: the successes
(and likewise the failures) are exactly the concatenation, in row order, of
the per-row chunks, and within each row chunk the locales appear as a
sublist of default-locale-then-other-locales — the base entry first, the
locale entries in column order. -/
theorem report_order {σ : Type} (R : Remote σ) (s : σ) (rows : List CsvRow)
    (rep : SyncReport) (sF : σ) (tr : List RemoteCall)
    (h : processCsv R s rows = (.done rep sF, tr)) :
    rep.successes =
      deltasSucc (rowsDeltas R rep.defaultLocale rep.otherLocales rows s).1 ∧
    rep.failures =
      deltasFail (rowsDeltas R rep.defaultLocale rep.otherLocales rows s).1 ∧
    (∀ d ∈ (rowsDeltas R rep.defaultLocale rep.otherLocales rows s).1,
      List.Sublist (d.succ.map ReportEntrySuccess.locale)
        (rep.defaultLocale :: rep.otherLocales) ∧
      List.Sublist (d.fail.map ReportEntryFailure.locale)
        (rep.defaultLocale :: rep.otherLocales)) := by
  obtain ⟨r0, rest, h1, hrest, hrows, hh, hrep, hsF, htr⟩ :=
    processCsv_done_inv R s rows rep sF tr h
  subst hrows
  subst hrep
  refine ⟨rfl, rfl, ?_⟩
  intro d hd
  obtain ⟨row, s0, hmem, heq⟩ :=
    rowsDeltas_mem R h1 hrest (r0 :: rest) s d (by simpa using hd)
  subst heq
  exact rowDelta_locale_sublist R h1 hrest row s0

/-- Witness for C8: the two-row scenario over the spec-modelled remote. -/
theorem report_order_witness :
    processCsv strapiRemote emptyStrapi [rowF1, rowF2] =
      (ProcessOutcome.done reportF1F2 stateF1F2, traceF1F2) ∧
    (reportF1F2.successes =
      deltasSucc (rowsDeltas strapiRemote reportF1F2.defaultLocale
        reportF1F2.otherLocales [rowF1, rowF2] emptyStrapi).1 ∧
     reportF1F2.failures =
      deltasFail (rowsDeltas strapiRemote reportF1F2.defaultLocale
        reportF1F2.otherLocales [rowF1, rowF2] emptyStrapi).1 ∧
     (∀ d ∈ (rowsDeltas strapiRemote reportF1F2.defaultLocale
        reportF1F2.otherLocales [rowF1, rowF2] emptyStrapi).1,
      List.Sublist (d.succ.map ReportEntrySuccess.locale)
        (reportF1F2.defaultLocale :: reportF1F2.otherLocales) ∧
      List.Sublist (d.fail.map ReportEntryFailure.locale)
        (reportF1F2.defaultLocale :: reportF1F2.otherLocales))) :=
  ⟨by decide,
    report_order strapiRemote emptyStrapi [rowF1, rowF2] reportF1F2 stateF1F2
      traceF1F2 (by decide)⟩

/-- C6: idempotence over the spec-modelled remote. Running the same CSV a
second time, starting from the state an initial run over the empty remote
left behind, yields an `update-base` success — and no `create-base` entry —
for the `feature_id` of every row that succeeded on the first run (every
first-run base success entry). -/
theorem second_run_update_base (rows : List CsvRow) (rep1 : SyncReport)
    (s1 : StrapiState) (tr1 : List RemoteCall) (rep2 : SyncReport)
    (s2 : StrapiState) (tr2 : List RemoteCall)
    (h1 : processCsv strapiRemote emptyStrapi rows = (.done rep1 s1, tr1))
    (h2 : processCsv strapiRemote s1 rows = (.done rep2 s2, tr2)) :
    ∀ e1 ∈ rep1.successes, succIsBase e1 = true →
      (∃ e2 ∈ rep2.successes,
        e2.featureId = e1.featureId ∧ e2.action = Action.updateBase) ∧
      (∀ e2 ∈ rep2.successes, e2.featureId = e1.featureId →
        e2.action ≠ Action.createBase) := by
  obtain ⟨r0, rest, dl, ols, hrows, hh, hrep1, hs1, htr1⟩ :=
    processCsv_done_inv _ _ _ _ _ _ h1
  subst hrows
  obtain ⟨r0', rest', dl', ols', hrows', hh', hrep2, hs2, htr2⟩ :=
    processCsv_done_inv _ _ _ _ _ _ h2
  injection hrows' with hr0 hrest
  subst hr0
  subst hrest
  rw [hh] at hh'
  injection hh' with hfeat hh2
  injection hh2 with hdl hols
  subst hdl
  subst hols
  subst hrep1
  subst hs1
  subst hrep2
  intro e1 he1mem hbase1
  have he1mem' : e1 ∈ deltasSucc
      (rowsDeltas strapiRemote dl ols (r0 :: rest) emptyStrapi).1 := he1mem
  have hfid1 : hasFid (rowsDeltas strapiRemote dl ols (r0 :: rest) emptyStrapi).2
      e1.featureId :=
    deltasSucc_hasFid dl ols (r0 :: rest) emptyStrapi e1 he1mem'
  obtain ⟨row, hrowmem, hfeq, hfidne, hnmne⟩ :=
    deltasSucc_row_exists strapiRemote dl ols (r0 :: rest) emptyStrapi e1 he1mem'
  constructor
  · obtain ⟨e2, he2mem, he2feat, he2act⟩ :=
      run2_update_exists dl ols (r0 :: rest) _ row hrowmem hfidne hnmne
        (by rw [hfeq]; exact hfid1)
    exact ⟨e2, he2mem, by rw [he2feat, hfeq], he2act⟩
  · intro e2 he2mem he2feat
    exact run2_no_create dl ols e1.featureId (r0 :: rest) _ hfid1 e2 he2mem he2feat

/-- Witness for C6: the two-row scenario run twice; the first run creates,
the second run updates. -/
theorem second_run_update_base_witness :
    processCsv strapiRemote emptyStrapi [rowF1, rowF2] =
      (ProcessOutcome.done reportF1F2 stateF1F2, traceF1F2) ∧
    processCsv strapiRemote stateF1F2 [rowF1, rowF2] =
      (ProcessOutcome.done reportF1F2second stateF1F2, traceF1F2second) ∧
    (∀ e1 ∈ reportF1F2.successes, succIsBase e1 = true →
      (∃ e2 ∈ reportF1F2second.successes,
        e2.featureId = e1.featureId ∧ e2.action = Action.updateBase) ∧
      (∀ e2 ∈ reportF1F2second.successes, e2.featureId = e1.featureId →
        e2.action ≠ Action.createBase)) :=
  ⟨by decide, by decide,
    second_run_update_base [rowF1, rowF2] reportF1F2 stateF1F2 traceF1F2
      reportF1F2second stateF1F2 traceF1F2second (by decide) (by decide)⟩

end StrapiSync
